import Mathlib

/-!
A verification development for the silly-compiler front-end library.

The Rust source is embedded shallowly:

* `src/types.rs` — `FloatingPointKind`, `AddressSpace`, `TargetExtensionParameter`,
  `Type` (here `Ty`, since `Type` is reserved in Lean), `Type::is_first_class`,
  `Type::is_sized`.
* `src/ir.rs` — the shared-ownership model (`Ir` namespace): `Instruction`,
  `Value`, `Constant`, `Ordering`, `Value::from_type_constant`, `Value::get_type`
  (which is `todo!()` — a panic — modelled as the constant `none`), and
  `Constant::is_compatible_with_type` (which can reach the `todo!()` panic,
  so it is modelled as `Option Bool`, `none` standing for a panic).
* `src/llvm/ir.rs` — the owned model (`Llvm` namespace): `Value`, `Constant`
  and their total `get_type` / `is_compatible_with_type`.

Rust `usize` is modelled as `Nat`, `Vec<T>`/`Arc<T>` as `List T`/`T`
(shared immutable ownership), and a `panic!`/`todo!` as `none` in an
`Option`-valued result.  Rust's derived `PartialEq` on `Type` is modelled by
the structural `Ty.beq`, proved equivalent to propositional equality.
-/

/-- `types.rs` `FloatingPointKind`: a specific kind of floating point type. -/
inductive FloatingPointKind where
  | Binary16
  | Brain
  | Binary32
  | Binary64
  | Binary128
  | X86Fp80
  | PpcFp128
deriving DecidableEq

/-- `types.rs` `AddressSpace`: an address space that a pointer can point to. -/
inductive AddressSpace where
  | Numbered (n : Nat)
  | Named (s : String)
deriving DecidableEq

mutual

/-- `types.rs` `Type` (named `Ty` here because `Type` is reserved in Lean):
the closed variant set of the type model. -/
inductive Ty where
  | Void
  | Function (return_type : Ty) (parameters : List Ty) (has_varargs : Bool)
  | Integer (bit_width : Nat)
  | FloatingPoint (kind : FloatingPointKind)
  | AMX
  | MMX
  | Pointer (address_space : AddressSpace)
  | TargetExtension (name : String) (parameters : List TargetExtensionParameter)
  | Vector (length : Nat) (element_type : Ty) (is_scalable : Bool)
  | Label
  | Token
  | Metadata
  | Array (length : Nat) (element_type : Ty)
  | Structure (types : List Ty) (is_packed : Bool)
  | OpaqueStructure

/-- `types.rs` `TargetExtensionParameter`: a parameter that can be passed to
the target extension type (the `Type` variant is `type` here, again a
reserved word in Lean). -/
inductive TargetExtensionParameter where
  | type (t : Ty)
  | integer (n : Nat)

end

mutual

/-- Structural equality on `Ty`, modelling the `==` of the derived
`PartialEq` instance of `types.rs`. -/
def Ty.beq : Ty → Ty → Bool
  | .Void, .Void => true
  | .Function r p v, .Function r' p' v' => Ty.beq r r' && Ty.beqList p p' && v == v'
  | .Integer w, .Integer w' => w == w'
  | .FloatingPoint k, .FloatingPoint k' => k == k'
  | .AMX, .AMX => true
  | .MMX, .MMX => true
  | .Pointer a, .Pointer a' => a == a'
  | .TargetExtension n p, .TargetExtension n' p' => n == n' && Ty.beqParams p p'
  | .Vector l e s, .Vector l' e' s' => l == l' && Ty.beq e e' && s == s'
  | .Label, .Label => true
  | .Token, .Token => true
  | .Metadata, .Metadata => true
  | .Array l e, .Array l' e' => l == l' && Ty.beq e e'
  | .Structure ts p, .Structure ts' p' => Ty.beqList ts ts' && p == p'
  | .OpaqueStructure, .OpaqueStructure => true
  | _, _ => false

/-- Elementwise `Ty.beq` on lists (the `Vec<Type>` fields). -/
def Ty.beqList : List Ty → List Ty → Bool
  | [], [] => true
  | a :: as, b :: bs => Ty.beq a b && Ty.beqList as bs
  | _, _ => false

/-- Structural equality on `TargetExtensionParameter`. -/
def Ty.beqParam : TargetExtensionParameter → TargetExtensionParameter → Bool
  | .type t, .type t' => Ty.beq t t'
  | .integer n, .integer n' => n == n'
  | _, _ => false

/-- Elementwise `Ty.beqParam` on lists. -/
def Ty.beqParams : List TargetExtensionParameter → List TargetExtensionParameter → Bool
  | [], [] => true
  | a :: as, b :: bs => Ty.beqParam a b && Ty.beqParams as bs
  | _, _ => false

end

/-- `Ty.beq` decides propositional equality: the derived `PartialEq` of the
source is structural equality. -/
theorem Ty.beq_iff (a b : Ty) : Ty.beq a b = true ↔ a = b := by
  refine Ty.beq.induct
    (fun a b => Ty.beq a b = true ↔ a = b)
    (fun x y => Ty.beqParams x y = true ↔ x = y)
    (fun x y => Ty.beqParam x y = true ↔ x = y)
    (fun x y => Ty.beqList x y = true ↔ x = y)
    ?_ ?_ ?_ ?_ ?_ ?_ ?_ ?_ ?_ ?_ ?_ ?_ ?_ ?_ ?_ ?_
    ?_ ?_ ?_ ?_ ?_ ?_ ?_ ?_ ?_ a b
  case _ => simp [Ty.beq]
  case _ =>
    intro r p v r' p' v' ih1 ih2
    simp [Ty.beq, ih1, ih2, and_assoc]
  case _ => intro w w'; simp [Ty.beq]
  case _ => intro k k'; simp [Ty.beq]
  case _ => simp [Ty.beq]
  case _ => simp [Ty.beq]
  case _ => intro a a'; simp [Ty.beq]
  case _ =>
    intro n p n' p' ih
    simp [Ty.beq, ih]
  case _ =>
    intro l e s l' e' s' ih
    simp [Ty.beq, ih, and_assoc]
  case _ => simp [Ty.beq]
  case _ => simp [Ty.beq]
  case _ => simp [Ty.beq]
  case _ =>
    intro l e l' e' ih
    simp [Ty.beq, ih]
  case _ =>
    intro ts p ts' p' ih
    simp [Ty.beq, ih]
  case _ => simp [Ty.beq]
  case _ =>
    intro x y h1 h2 h3 h4 h5 h6 h7 h8 h9 h10 h11 h12 h13 h14 h15
    cases x <;> cases y <;>
      first
        | (solve | simp [Ty.beq])
        | (exfalso;
           solve
             | (apply h1 <;> rfl) | (apply h2 <;> rfl) | (apply h3 <;> rfl)
             | (apply h4 <;> rfl) | (apply h5 <;> rfl) | (apply h6 <;> rfl)
             | (apply h7 <;> rfl) | (apply h8 <;> rfl) | (apply h9 <;> rfl)
             | (apply h10 <;> rfl) | (apply h11 <;> rfl) | (apply h12 <;> rfl)
             | (apply h13 <;> rfl) | (apply h14 <;> rfl) | (apply h15 <;> rfl))
  case _ => simp [Ty.beqParams]
  case _ =>
    intro a as b bs ih1 ih2
    simp [Ty.beqParams, ih1, ih2]
  case _ =>
    intro x y h1 h2
    cases x <;> cases y <;>
      first
        | (solve | simp [Ty.beqParams])
        | (exfalso; solve | (apply h1 <;> rfl) | (apply h2 <;> rfl))
  case _ =>
    intro t t' ih
    simp [Ty.beqParam, ih]
  case _ => intro n n'; simp [Ty.beqParam]
  case _ =>
    intro x y h1 h2
    cases x <;> cases y <;>
      first
        | (solve | simp [Ty.beqParam])
        | (exfalso; solve | (apply h1 <;> rfl) | (apply h2 <;> rfl))
  case _ => simp [Ty.beqList]
  case _ =>
    intro a as b bs ih1 ih2
    simp [Ty.beqList, ih1, ih2]
  case _ =>
    intro x y h1 h2
    cases x <;> cases y <;>
      first
        | (solve | simp [Ty.beqList])
        | (exfalso; solve | (apply h1 <;> rfl) | (apply h2 <;> rfl))

instance : DecidableEq Ty := fun a b => decidable_of_iff _ (Ty.beq_iff a b)

/-- `types.rs` `Type::is_first_class`: whether this type is first-class
(able to be returned from instructions and stored in registers). -/
def Ty.is_first_class : Ty → Bool
  | .Integer _ | .FloatingPoint _ | .AMX | .MMX | .Pointer _
  | .TargetExtension _ _ | .Vector _ _ _ => true
  | _ => false

/-- `types.rs` `Type::is_sized`: whether this type has a size. -/
def Ty.is_sized : Ty → Bool
  | .Integer _ | .FloatingPoint _ | .Pointer _ | .Vector _ _ _
  | .Array _ _ | .Structure _ _ => true
  | _ => false

namespace Ir

/-- `ir.rs` `AllowedWrapping`. -/
structure AllowedWrapping where
  can_wrap_unsigned : Bool
  can_wrap_signed : Bool

/-- `ir.rs` `impl Default for AllowedWrapping`: both flags default to true. -/
def AllowedWrapping.default : AllowedWrapping := ⟨true, true⟩

/-- `ir.rs` `GetPointerKind`. -/
inductive GetPointerKind where
  | Regular
  | InBounds
  | InRange (low high : Nat)
deriving DecidableEq

/-- `ir.rs` `Ordering` (the atomic memory ordering; the source derives only
`PartialEq`/`Eq`, no comparison). -/
inductive Ordering where
  | Unordered
  | Monotonic
  | Acquire
  | Release
  | AcquireRelease
  | SequentiallyConsistent
deriving DecidableEq, Fintype

/-- `ir.rs` `IntegerComparison`. -/
inductive IntegerComparison where
  | Equal
  | NotEqual
  | UnsignedGreaterThan
  | UnsignedGreaterOrEqual
  | UnsignedLessThan
  | UnsignedLessOrEqual
  | SignedGreaterThan
  | SignedGreaterOrEqual
  | SignedLessThan
  | SignedLessOrEqual
deriving DecidableEq

/-- `ir.rs` `TailCallHint`. -/
inductive TailCallHint where
  | Indifferent
  | ShouldTail
  | MustTail
  | NeverTail
deriving DecidableEq

end Ir

/-- `types.rs` `ParameterAttribute` (LLVM parameter attributes). -/
inductive ParameterAttribute where
  | ZeroExtend
  | SignExtend
  | TargetDependent
  | PassByValue (t : Ty)
  | PassByReference (t : Ty)
  | PreAllocated (t : Ty)
  | StackAllocated (t : Ty)
  | ReturnStructure (t : Ty)
  | Alignment (n : Nat)
  | NoAlias
  | NoCapture
  | NoFree
  | Nest
  | Returned
  | NonNull
  | Dereferenceable (n : Nat)
  | DereferenceableOrNull (n : Nat)
  | Context
  | SwiftAsync
  | SwiftError
  | Immediate
  | NoUndefined
  | StackAlignment (n : Nat)
  | AllocationAlignment
  | NoDereference
  | ReadOnly
  | PoisonOnUnwind
  | Range (range_type : Ty) (low_inclusive high_exclusive : List Nat)

namespace Ir

mutual

/-- `ir.rs` `Instruction`: the full instruction taxonomy (an `Arc<Value>`
operand is modelled as a `Value`). -/
inductive Instruction where
  | Add (left_hand_side right_hand_side : Value) (allowed_wrapping : AllowedWrapping)
  | Subtract (left_hand_side right_hand_side : Value) (allowed_wrapping : AllowedWrapping)
  | Multiply (left_hand_side right_hand_side : Value) (allowed_wrapping : AllowedWrapping)
  | UnsignedDivide (left_hand_side right_hand_side : Value) (is_exact : Bool)
  | SignedDivide (left_hand_side right_hand_side : Value) (is_exact : Bool)
  | UnsignedRemainder (left_hand_side right_hand_side : Value)
  | SignedRemainder (left_hand_side right_hand_side : Value)
  | ShiftLeft (left_hand_side right_hand_side : Value) (allowed_wrapping : AllowedWrapping)
  | LogicalShiftRight (left_hand_side right_hand_side : Value) (is_exact : Bool)
  | ArithmeticShiftRight (left_hand_side right_hand_side : Value) (is_exact : Bool)
  | And (left_hand_side right_hand_side : Value)
  | Or (left_hand_side right_hand_side : Value) (disjoint : Bool)
  | ExclusiveOr (left_hand_side right_hand_side : Value)
  | ExtractValue (aggregate : Value) (indices : List Nat)
  | InsertValue (aggregate value : Value) (indices : List Nat)
  | StackAllocate (can_reuse : Bool) (value_type : Ty) (num_elements : Option Value)
      (alignment : Option Nat) (address_space : Option AddressSpace)
  | Load (is_volatile : Bool) (result_type : Ty) (pointer : Value) (alignment : Option Nat)
  | AtomicLoad (is_volatile : Bool) (result_type : Ty) (pointer : Value)
      (ordering : Ordering) (sync_scope : Option String) (alignment : Nat)
  | Store (is_volatile : Bool) (value pointer : Value) (alignment : Option Nat)
  | AtomicStore (is_volatile : Bool) (value pointer : Value)
      (ordering : Ordering) (sync_scope : Option String) (alignment : Nat)
  | Fence (ordering : Ordering) (sync_scope : Option String)
  | GetElementPointer (kind : GetPointerKind) (pointer_type : Ty)
      (pointer : Value) (indices : List Value)
  | Truncate (allowed_wrapping : AllowedWrapping) (value : Value) (new_type : Ty)
  | ZeroExtend (value : Value) (new_type : Ty)
  | SignExtend (value : Value) (new_type : Ty)
  | PointerToInteger (value : Value) (new_type : Ty)
  | IntegerToPointer (value : Value) (new_type : Ty)
  | BitCast (value : Value) (new_type : Ty)
  | AddressSpaceCast (value : Value) (new_type : Ty)
  | CompareIntegers (comparison : IntegerComparison) (left_hand_side right_hand_side : Value)
  | Select (condition true_value false_value : Value)
  | Freeze (value : Value)
  | Call (tail_call_hint : TailCallHint) (calling_convention : Option String)
      (return_value_attributes : List ParameterAttribute) (address_space : Option AddressSpace)
      (function_type : Ty) (function_name : String) (function_arguments : List Value)

/-- `ir.rs` `Value`: the shared-ownership value model. -/
inductive Value where
  | FromInstruction (instruction : Instruction)
  | FromConstant (constant_type : Ty) (constant : Constant)
  | FromGlobal
  | FromFunction
  | FromLabel
  | FromIdentifier (value_type : Ty) (identifier : String)

/-- `ir.rs` `Constant`. -/
inductive Constant where
  | Void
  | Boolean (b : Bool)
  | Integer (n : Nat)
  | FloatingPoint (n : Nat)
  | NullPointer
  | NoneToken
  | Structure (values : List Value)
  | Array (values : List Value)
  | Vector (values : List Value)
  | Zero
  | Metadata
  | Undefined
  | Poison

end

/-- `ir.rs` `Value::get_type`: the body is `todo!()`, i.e. the function
panics on every input; the panic is modelled as `none`. -/
def Value.get_type : Value → Option Ty := fun _ => none

/-- Models `values.iter().map(|v| v.get_type()).zip(types).any(|(a, b)| a != b)`
from the `Constant::Structure` arm of `ir.rs` `is_compatible_with_type`:
lazy iteration, so the `zip` stops at the shorter list and a panic
(`none`) surfaces only when an element's `get_type` is actually reached. -/
def zipAnyNeq : List Value → List Ty → Option Bool
  | [], _ => some false
  | _ :: _, [] => some false
  | v :: vs, t :: ts =>
      match Value.get_type v with
      | none => none
      | some a => if Ty.beq a t then zipAnyNeq vs ts else some true

/-- Models `values.iter().any(|v| v.get_type() != element_type)` from the
`Constant::Array`/`Constant::Vector` arms of `ir.rs`
`is_compatible_with_type` (again lazily, short-circuiting on the first
mismatch and surfacing a panic as `none`). -/
def anyNeq : List Value → Ty → Option Bool
  | [], _ => some false
  | v :: vs, t =>
      match Value.get_type v with
      | none => none
      | some a => if Ty.beq a t then anyNeq vs t else some true

/-- `ir.rs` `Constant::is_compatible_with_type`.  The aggregate arms call the
unimplemented `Value::get_type`, so the result is an `Option Bool`: `some b`
when the source returns the boolean `b`, `none` when it panics.  Rust's `&&`
is lazy, so a failed length test returns `false` before any `get_type` call. -/
def Constant.is_compatible_with_type : Constant → Ty → Option Bool
  | .Void, t => some (Ty.beq t .Void)
  | .Boolean _, t => some (Ty.beq t (.Integer 1))
  | .Integer _, t => some (match t with | .Integer _ => true | _ => false)
  | .FloatingPoint _, t => some (match t with | .FloatingPoint _ => true | _ => false)
  | .NullPointer, t => some (match t with | .Pointer _ => true | _ => false)
  | .NoneToken, t => some (Ty.beq t .Token)
  | .Structure values, t =>
      match t with
      | .Structure types _ => (zipAnyNeq values types).map (fun b => !b)
      | _ => some false
  | .Array values, t =>
      match t with
      | .Array length element_type =>
          if length == values.length then (anyNeq values element_type).map (fun b => !b)
          else some false
      | _ => some false
  | .Vector values, t =>
      match t with
      | .Vector length element_type _ =>
          if length == values.length then (anyNeq values element_type).map (fun b => !b)
          else some false
      | _ => some false
  | .Zero, _ => some true
  | .Metadata, t => some (Ty.beq t .Metadata)
  | .Undefined, t => some (match t with | .Label => false | .Void => false | _ => true)
  | .Poison, _ => some true

/-- `ir.rs` `Value::from_type_constant`: panics (modelled as `none`) when the
constant is not compatible with the type — including when the compatibility
check itself panics — and otherwise builds the `FromConstant` value. -/
def Value.from_type_constant (constant_type : Ty) (constant : Constant) : Option Value :=
  match Constant.is_compatible_with_type constant constant_type with
  | none => none
  | some false => none
  | some true => some (.FromConstant constant_type constant)

end Ir

namespace Llvm

mutual

/-- `llvm/ir.rs` `Value`: the owned value model. -/
inductive Value where
  | Identifier (t : Ty) (name : String)
  | Constant (t : Ty) (c : Constant)

/-- `llvm/ir.rs` `Constant`. -/
inductive Constant where
  | Void
  | Boolean (b : Bool)
  | Integer (n : Nat)
  | FloatingPoint (n : Nat)
  | NullPointer
  | NoneToken
  | Structure (values : List Value)
  | Array (values : List Value)
  | Vector (values : List Value)
  | Zero
  | Metadata
  | Undefined
  | Poison

end

/-- `llvm/ir.rs` `Value::get_type`: returns the type stored in either
variant. -/
def Value.get_type : Value → Ty
  | .Identifier t _ => t
  | .Constant t _ => t

/-- `llvm/ir.rs` `Constant::is_compatible_with_type`.  `get_type` is total
here, so the whole check is a total `Bool`.  The `Structure` arm zips the
element types with the declared field types (the `zip` stops at the shorter
list); the `Array`/`Vector` arms additionally test the declared length. -/
def Constant.is_compatible_with_type : Constant → Ty → Bool
  | .Void, t => Ty.beq t .Void
  | .Boolean _, t => Ty.beq t (.Integer 1)
  | .Integer _, t => match t with | .Integer _ => true | _ => false
  | .FloatingPoint _, t => match t with | .FloatingPoint _ => true | _ => false
  | .NullPointer, t => match t with | .Pointer _ => true | _ => false
  | .NoneToken, t => Ty.beq t .Token
  | .Structure values, t =>
      match t with
      | .Structure types _ =>
          !(((values.map Value.get_type).zip types).any (fun p => !(Ty.beq p.1 p.2)))
      | _ => false
  | .Array values, t =>
      match t with
      | .Array length element_type =>
          (length == values.length)
            && !(values.any (fun v => !(Ty.beq (Value.get_type v) element_type)))
      | _ => false
  | .Vector values, t =>
      match t with
      | .Vector length element_type _ =>
          (length == values.length)
            && !(values.any (fun v => !(Ty.beq (Value.get_type v) element_type)))
      | _ => false
  | .Zero, _ => true
  | .Metadata, t => Ty.beq t .Metadata
  | .Undefined, t => match t with | .Label => false | .Void => false | _ => true
  | .Poison, _ => true

/-- `llvm/ir.rs` `Value::from_type_constant`: panics (modelled as `none`)
when the constant is not compatible with the type, and otherwise builds the
`Constant` value. -/
def Value.from_type_constant (t : Ty) (c : Llvm.Constant) : Option Value :=
  if Llvm.Constant.is_compatible_with_type c t then some (.Constant t c) else none

end Llvm

mutual

/-- The structural correspondence from the owned model's values
(`llvm/ir.rs`) to the shared-ownership model's values (`ir.rs`):
`Identifier` maps to `FromIdentifier` and `Constant` to `FromConstant`. -/
def corrValue : Llvm.Value → Ir.Value
  | .Identifier t s => .FromIdentifier t s
  | .Constant t c => .FromConstant t (corrConstant c)

/-- The structural correspondence from the owned model's constants to the
shared-ownership model's constants (variantwise identical). -/
def corrConstant : Llvm.Constant → Ir.Constant
  | .Void => .Void
  | .Boolean b => .Boolean b
  | .Integer n => .Integer n
  | .FloatingPoint n => .FloatingPoint n
  | .NullPointer => .NullPointer
  | .NoneToken => .NoneToken
  | .Structure values => .Structure (corrValues values)
  | .Array values => .Array (corrValues values)
  | .Vector values => .Vector (corrValues values)
  | .Zero => .Zero
  | .Metadata => .Metadata
  | .Undefined => .Undefined
  | .Poison => .Poison

/-- `corrValue` mapped over a list of element values. -/
def corrValues : List Llvm.Value → List Ir.Value
  | [] => []
  | v :: vs => corrValue v :: corrValues vs

end

/-- `corrValues` preserves list length. -/
theorem corrValues_length (vs : List Llvm.Value) : (corrValues vs).length = vs.length := by
  induction vs with
  | nil => rfl
  | cons v vs ih => simp [corrValues, ih]

/-- C4: `is_first_class` and `is_sized` are total, pure functions over the
closed `Type` variant set: `is_first_class t` holds exactly for the
Integer/FloatingPoint/AMX/MMX/Pointer/TargetExtension/Vector variants,
`is_sized t` exactly for the Integer/FloatingPoint/Pointer/Vector/Array/
Structure variants; in particular AMX is first-class but not sized and
Array is sized but not first-class. -/
theorem c4_first_class_and_sized_characterised (t : Ty) :
    (t.is_first_class = true ↔
      ((∃ w, t = .Integer w) ∨ (∃ k, t = .FloatingPoint k) ∨ t = .AMX ∨ t = .MMX ∨
        (∃ a, t = .Pointer a) ∨ (∃ n p, t = .TargetExtension n p) ∨
        (∃ l e s, t = .Vector l e s)))
    ∧ (t.is_sized = true ↔
      ((∃ w, t = .Integer w) ∨ (∃ k, t = .FloatingPoint k) ∨ (∃ a, t = .Pointer a) ∨
        (∃ l e s, t = .Vector l e s) ∨ (∃ l e, t = .Array l e) ∨
        (∃ ts p, t = .Structure ts p)))
    ∧ (Ty.AMX.is_first_class = true ∧ Ty.AMX.is_sized = false)
    ∧ (∀ l e, (Ty.Array l e).is_sized = true ∧ (Ty.Array l e).is_first_class = false) := by
  refine ⟨?_, ?_, ⟨rfl, rfl⟩, fun l e => ⟨rfl, rfl⟩⟩ <;>
    cases t <;> simp [Ty.is_first_class, Ty.is_sized]

/-- C3: `Constant::Zero` and `Constant::Poison` are compatible with every
type, and `Constant::Undefined` is compatible with exactly the types that
are neither `Label` nor `Void` — in both the `ir.rs` model (where the check
returns without ever panicking on these variants) and the `llvm/ir.rs`
model. -/
theorem c3_zero_poison_undefined_compat (t : Ty) :
    Llvm.Constant.is_compatible_with_type .Zero t = true
    ∧ Llvm.Constant.is_compatible_with_type .Poison t = true
    ∧ Ir.Constant.is_compatible_with_type .Zero t = some true
    ∧ Ir.Constant.is_compatible_with_type .Poison t = some true
    ∧ (Llvm.Constant.is_compatible_with_type .Undefined t = true ↔
        (t ≠ .Label ∧ t ≠ .Void))
    ∧ (Ir.Constant.is_compatible_with_type .Undefined t = some true ↔
        (t ≠ .Label ∧ t ≠ .Void)) := by
  refine ⟨rfl, rfl, rfl, rfl, ?_, ?_⟩ <;>
    cases t <;>
      simp [Llvm.Constant.is_compatible_with_type, Ir.Constant.is_compatible_with_type]

/-- C1 (failing input): a `Structure` constant with zero element values is
accepted against a structure type with one declared field — the
`Structure` arm of `is_compatible_with_type` zips the element types with
the declared field types and never compares the counts, in both models —
while the sibling `Array` and `Vector` arms do reject the analogous count
mismatch. -/
theorem c1_structure_count_not_checked :
    Llvm.Constant.is_compatible_with_type (.Structure [])
        (.Structure [.Integer 32] false) = true
    ∧ Ir.Constant.is_compatible_with_type (.Structure [])
        (.Structure [.Integer 32] false) = some true
    ∧ Llvm.Constant.is_compatible_with_type (.Structure
          [.Constant (.Integer 32) (.Integer 5), .Constant (.Integer 32) (.Integer 6)])
        (.Structure [.Integer 32] false) = true
    ∧ Llvm.Constant.is_compatible_with_type (.Array []) (.Array 1 (.Integer 32)) = false
    ∧ Llvm.Constant.is_compatible_with_type (.Vector [])
        (.Vector 1 (.Integer 32) false) = false
    ∧ ([] : List Llvm.Value).length ≠ [Ty.Integer 32].length := by
  refine ⟨rfl, rfl, ?_, rfl, rfl, by decide⟩
  simp [Llvm.Constant.is_compatible_with_type, Llvm.Value.get_type, Ty.beq]

/-- C2 (failing input): constructing a value from `Constant::Boolean(true)`
against `Type::Integer{bit_width: 32}` panics (modelled as `none`) in both
models, instead of returning a `TypeMismatch` error value — the
compatibility check itself returns `false` and `from_type_constant` then
calls `panic!`. -/
theorem c2_from_type_constant_panics_on_mismatch :
    Ir.Value.from_type_constant (.Integer 32) (.Boolean true) = none
    ∧ Llvm.Value.from_type_constant (.Integer 32) (.Boolean true) = none
    ∧ Ir.Constant.is_compatible_with_type (.Boolean true) (.Integer 32) = some false
    ∧ Llvm.Constant.is_compatible_with_type (.Boolean true) (.Integer 32) = false := by
  refine ⟨?_, ?_, ?_, ?_⟩ <;>
    simp [Ir.Value.from_type_constant, Llvm.Value.from_type_constant,
      Ir.Constant.is_compatible_with_type, Llvm.Constant.is_compatible_with_type, Ty.beq]

/-- C6 (counterexample): `ir.rs` `Value::get_type` is `todo!()`, so even for
a `FromIdentifier` value it panics (modelled as `none`) instead of
returning the type given at construction. -/
theorem c6_get_type_unimplemented_counterexample :
    Ir.Value.get_type (.FromIdentifier (.Integer 32) "x") = none
    ∧ Ir.Value.get_type (.FromIdentifier (.Integer 32) "x") ≠ some (.Integer 32) := by
  exact ⟨rfl, by simp [Ir.Value.get_type]⟩

/-- C6 (amended): in the owned model (`llvm/ir.rs`) `get_type` returns the
declared type — for identifiers the construction type, and for every value
built by `from_type_constant t c` the type `t` — while in the
shared-ownership model (`ir.rs`) `get_type` is unimplemented and panics on
every value, so no `FromInstruction` result-type dispatch exists. -/
theorem c6_get_type_amended :
    (∀ t s, (Llvm.Value.Identifier t s).get_type = t)
    ∧ (∀ t c v, Llvm.Value.from_type_constant t c = some v → v.get_type = t)
    ∧ (∀ t c, Llvm.Constant.is_compatible_with_type c t = true →
        ∃ v, Llvm.Value.from_type_constant t c = some v ∧ v.get_type = t)
    ∧ (∀ v : Ir.Value, v.get_type = none) := by
  refine ⟨fun t s => rfl, fun t c v h => ?_, fun t c h => ?_, fun v => rfl⟩
  · unfold Llvm.Value.from_type_constant at h
    split at h
    · cases h; rfl
    · cases h
  · refine ⟨.Constant t c, ?_, rfl⟩
    unfold Llvm.Value.from_type_constant
    simp [h]

/-- C10: compatibility of scalar constants is decided by the type's variant
alone, never by the constant's payload — `Boolean` is compatible exactly
with the 1-bit integer type, `Integer` with every integer bit width
(whether or not the payload fits), `FloatingPoint` with every floating
point kind, and `NullPointer` with a pointer in every address space. -/
theorem c10_scalar_compat_by_variant :
    (∀ b t, Llvm.Constant.is_compatible_with_type (.Boolean b) t = true ↔ t = .Integer 1)
    ∧ (∀ b b' t, Llvm.Constant.is_compatible_with_type (.Boolean b) t =
        Llvm.Constant.is_compatible_with_type (.Boolean b') t)
    ∧ (∀ n w, Llvm.Constant.is_compatible_with_type (.Integer n) (.Integer w) = true)
    ∧ (∀ n m t, Llvm.Constant.is_compatible_with_type (.Integer n) t =
        Llvm.Constant.is_compatible_with_type (.Integer m) t)
    ∧ (∀ n k, Llvm.Constant.is_compatible_with_type (.FloatingPoint n)
        (.FloatingPoint k) = true)
    ∧ (∀ n m t, Llvm.Constant.is_compatible_with_type (.FloatingPoint n) t =
        Llvm.Constant.is_compatible_with_type (.FloatingPoint m) t)
    ∧ (∀ a, Llvm.Constant.is_compatible_with_type .NullPointer (.Pointer a) = true)
    ∧ (∀ t, Llvm.Constant.is_compatible_with_type .NullPointer t = true ↔
        ∃ a, t = .Pointer a)
    ∧ (∀ b t, Ir.Constant.is_compatible_with_type (.Boolean b) t =
        some (Llvm.Constant.is_compatible_with_type (.Boolean b) t))
    ∧ (∀ n w, Ir.Constant.is_compatible_with_type (.Integer n) (.Integer w) = some true) := by
  refine ⟨fun b t => ?_, fun b b' t => rfl, fun n w => rfl, fun n m t => rfl,
    fun n k => rfl, fun n m t => rfl, fun a => rfl, fun t => ?_,
    fun b t => rfl, fun n w => rfl⟩
  · cases t <;>
      simp [Llvm.Constant.is_compatible_with_type, Ty.beq]
  · cases t <;> simp [Llvm.Constant.is_compatible_with_type]

/-- C9 (counterexample): the two models disagree on a structurally
corresponding pair — on a one-element `Array` constant checked against a
matching one-element array type, the owned model (`llvm/ir.rs`) returns
`true` while the shared-ownership model (`ir.rs`) reaches the `todo!()` in
`Value::get_type` and panics (`none`), so it does not return that boolean
(or any boolean). -/
theorem c9_models_disagree_counterexample :
    Ir.Constant.is_compatible_with_type
        (corrConstant (.Array [.Constant (.Integer 32) (.Integer 5)]))
        (.Array 1 (.Integer 32))
      ≠ some (Llvm.Constant.is_compatible_with_type
        (.Array [.Constant (.Integer 32) (.Integer 5)]) (.Array 1 (.Integer 32)))
    ∧ Ir.Constant.is_compatible_with_type
        (corrConstant (.Array [.Constant (.Integer 32) (.Integer 5)]))
        (.Array 1 (.Integer 32)) = none
    ∧ Llvm.Constant.is_compatible_with_type
        (.Array [.Constant (.Integer 32) (.Integer 5)]) (.Array 1 (.Integer 32)) = true := by
  refine ⟨?_, ?_, ?_⟩ <;>
    simp [Ir.Constant.is_compatible_with_type, Llvm.Constant.is_compatible_with_type,
      corrConstant, corrValues, corrValue, Ir.anyNeq, Ir.Value.get_type,
      Llvm.Value.get_type, Ty.beq]

/-- C9 (amended): whenever the shared-ownership model's compatibility check
returns a boolean at all (that is, it does not reach the unimplemented
`get_type`), the owned model returns the same boolean on the structurally
corresponding constant; the disagreement is confined to aggregate
constants whose check panics. -/
theorem c9_models_agree_when_no_panic (c : Llvm.Constant) (t : Ty) (b : Bool)
    (h : Ir.Constant.is_compatible_with_type (corrConstant c) t = some b) :
    Llvm.Constant.is_compatible_with_type c t = b := by
  cases c <;>
    simp only [corrConstant, Ir.Constant.is_compatible_with_type,
      Llvm.Constant.is_compatible_with_type, Option.some.injEq] at h ⊢ <;>
    try exact h
  case Structure values =>
    cases t <;> simp_all
    case Structure types is_packed =>
      cases values with
      | nil =>
        cases types <;>
          simp_all [corrValues, Ir.zipAnyNeq]
      | cons v vs =>
        cases types with
        | nil => simp_all [corrValues, Ir.zipAnyNeq]
        | cons t' ts => simp_all [corrValues, Ir.zipAnyNeq, corrValue, Ir.Value.get_type]
  case Array values =>
    cases t <;> simp_all
    case Array length element_type =>
      rw [show (corrValues values).length = values.length from corrValues_length values] at h
      by_cases hl : length = values.length
      · subst hl
        simp only [beq_self_eq_true, if_pos] at h
        cases values with
        | nil =>
          simp_all [corrValues, Ir.anyNeq]
        | cons v vs =>
          simp [corrValues, Ir.anyNeq, corrValue, Ir.Value.get_type] at h
      · rw [if_neg (by simpa using hl)] at h
        simp only [Option.some.injEq] at h
        subst h
        simp [hl]
  case Vector values =>
    cases t <;> simp_all
    case Vector length element_type is_scalable =>
      rw [show (corrValues values).length = values.length from corrValues_length values] at h
      by_cases hl : length = values.length
      · subst hl
        simp only [beq_self_eq_true, if_pos] at h
        cases values with
        | nil =>
          simp_all [corrValues, Ir.anyNeq]
        | cons v vs =>
          simp [corrValues, Ir.anyNeq, corrValue, Ir.Value.get_type] at h
      · rw [if_neg (by simpa using hl)] at h
        simp only [Option.some.injEq] at h
        subst h
        simp [hl]

/-- C9 (witness): the amended agreement applied to `Constant::Zero` against
`Type::Void`. -/
theorem c9_models_agree_witness :
    Llvm.Constant.is_compatible_with_type .Zero .Void = true :=
  c9_models_agree_when_no_panic .Zero .Void true rfl

namespace Ir

/-- Modelled from the spec: the repository only declares the `Ordering` enum
(`ir.rs` derives `PartialEq`/`Eq` and implements no comparison), and the
spec describes its order by covering pairs — Unordered < Monotonic,
Monotonic < Acquire, Monotonic < Release, Acquire < AcquireRelease,
Release < AcquireRelease, AcquireRelease < SequentiallyConsistent.  This is
that covering relation. -/
def Ordering.covers : Ordering → Ordering → Bool
  | .Unordered, .Monotonic => true
  | .Monotonic, .Acquire => true
  | .Monotonic, .Release => true
  | .Acquire, .AcquireRelease => true
  | .Release, .AcquireRelease => true
  | .AcquireRelease, .SequentiallyConsistent => true
  | _, _ => false

/-- Modelled from the spec: the strict order on atomic orderings — the
transitive closure of `Ordering.covers`, written out as a table. -/
def Ordering.ltb : Ordering → Ordering → Bool
  | .Unordered, .Monotonic => true
  | .Unordered, .Acquire => true
  | .Unordered, .Release => true
  | .Unordered, .AcquireRelease => true
  | .Unordered, .SequentiallyConsistent => true
  | .Monotonic, .Acquire => true
  | .Monotonic, .Release => true
  | .Monotonic, .AcquireRelease => true
  | .Monotonic, .SequentiallyConsistent => true
  | .Acquire, .AcquireRelease => true
  | .Acquire, .SequentiallyConsistent => true
  | .Release, .AcquireRelease => true
  | .Release, .SequentiallyConsistent => true
  | .AcquireRelease, .SequentiallyConsistent => true
  | _, _ => false

end Ir

/-- C5: the modelled order on the six atomic orderings is a strict order
(irreflexive, transitive, asymmetric) that is exactly the transitive
closure of the spec's covering pairs, contains each covering pair, and
leaves Acquire and Release incomparable. -/
theorem c5_ordering_strict_order :
    (∀ a b : Ir.Ordering, Ir.Ordering.ltb a b = true ↔
        Relation.TransGen (fun x y => Ir.Ordering.covers x y = true) a b)
    ∧ (∀ a : Ir.Ordering, Ir.Ordering.ltb a a = false)
    ∧ (∀ a b c : Ir.Ordering, Ir.Ordering.ltb a b = true →
        Ir.Ordering.ltb b c = true → Ir.Ordering.ltb a c = true)
    ∧ (∀ a b : Ir.Ordering, Ir.Ordering.ltb a b = true → Ir.Ordering.ltb b a = false)
    ∧ Ir.Ordering.ltb .Unordered .Monotonic = true
    ∧ Ir.Ordering.ltb .Monotonic .Acquire = true
    ∧ Ir.Ordering.ltb .Monotonic .Release = true
    ∧ Ir.Ordering.ltb .Acquire .AcquireRelease = true
    ∧ Ir.Ordering.ltb .Release .AcquireRelease = true
    ∧ Ir.Ordering.ltb .AcquireRelease .SequentiallyConsistent = true
    ∧ Ir.Ordering.ltb .Acquire .Release = false
    ∧ Ir.Ordering.ltb .Release .Acquire = false := by
  have cov : ∀ x y : Ir.Ordering, Ir.Ordering.covers x y = true →
      Ir.Ordering.ltb x y = true := by decide
  have tr : ∀ a b c : Ir.Ordering, Ir.Ordering.ltb a b = true →
      Ir.Ordering.ltb b c = true → Ir.Ordering.ltb a c = true := by decide
  refine ⟨fun a b => ⟨?_, ?_⟩, by decide, tr, by decide,
    rfl, rfl, rfl, rfl, rfl, rfl, rfl, rfl⟩
  · have uM : Relation.TransGen (fun x y : Ir.Ordering => Ir.Ordering.covers x y = true)
        .Unordered .Monotonic := .single rfl
    have mA : Relation.TransGen (fun x y : Ir.Ordering => Ir.Ordering.covers x y = true)
        .Monotonic .Acquire := .single rfl
    have mR : Relation.TransGen (fun x y : Ir.Ordering => Ir.Ordering.covers x y = true)
        .Monotonic .Release := .single rfl
    have aAR : Relation.TransGen (fun x y : Ir.Ordering => Ir.Ordering.covers x y = true)
        .Acquire .AcquireRelease := .single rfl
    have rAR : Relation.TransGen (fun x y : Ir.Ordering => Ir.Ordering.covers x y = true)
        .Release .AcquireRelease := .single rfl
    have arSC : Relation.TransGen (fun x y : Ir.Ordering => Ir.Ordering.covers x y = true)
        .AcquireRelease .SequentiallyConsistent := .single rfl
    have uA := uM.trans mA
    have uR := uM.trans mR
    have uAR := uA.trans aAR
    have uSC := uAR.trans arSC
    have mAR := mA.trans aAR
    have mSC := mAR.trans arSC
    have aSC := aAR.trans arSC
    have rSC := rAR.trans arSC
    intro h
    cases a <;> cases b <;> first | exact absurd h (by decide) | assumption
  · intro h
    induction h with
    | single hc => exact cov _ _ hc
    | tail _ hc ih => exact tr _ _ _ ih (cov _ _ hc)

/-!
The grammar component.  The repository parses types with a lalrpop-generated
parser (`lalrpop_mod!(pub grammar)` in `llvm/mod.rs`); the grammar source
file itself is not among the repository's files — only its tests and callers
are — so, per the spec, the type grammar of §4.4 is modelled here directly:
a recursive-descent parser over the character list of the input, together
with a canonical printer.  Tokens may be separated by whitespace (the
generated lexer skips it); `parse_type` is the type-expression entry point
of §6.
-/

/-- Whitespace, by character code: space, tab, line feed, carriage return. -/
def isWsChar (c : Char) : Bool :=
  c.toNat == 32 || c.toNat == 9 || c.toNat == 10 || c.toNat == 13

/-- A decimal digit, by character code. -/
def isDigitChar (c : Char) : Bool := 48 ≤ c.toNat && c.toNat ≤ 57

/-- Drop leading whitespace. -/
def skipWs : List Char → List Char
  | [] => []
  | c :: s => if isWsChar c then skipWs s else c :: s

/-- Consume a literal character sequence, returning the remainder. -/
def eatLit : List Char → List Char → Option (List Char)
  | [], s => some s
  | _ :: _, [] => none
  | c :: l, d :: s => if c == d then eatLit l s else none

/-- The longest digit prefix of the input, and the remainder. -/
def takeDigits : List Char → List Char × List Char
  | [] => ([], [])
  | c :: s =>
      if isDigitChar c then
        let (ds, r) := takeDigits s
        (c :: ds, r)
      else ([], c :: s)

/-- Decimal value of a digit list, most significant first, onto an
accumulator. -/
def digitsToNat : Nat → List Char → Nat
  | acc, [] => acc
  | acc, c :: s => digitsToNat (10 * acc + (c.toNat - 48)) s

/-- Parse a nonempty digit sequence as a `Nat`. -/
def parseNat (s : List Char) : Option (Nat × List Char) :=
  match takeDigits s with
  | ([], _) => none
  | (ds, r) => some (digitsToNat 0 ds, r)

/-- The characters before the next `"`, and the remainder after it. -/
def takeUntilQuote : List Char → Option (List Char × List Char)
  | [] => none
  | c :: s =>
      if c == '"' then some ([], s)
      else
        match takeUntilQuote s with
        | none => none
        | some (cs, r) => some (c :: cs, r)

/-- The decimal digit character for `n % 10`. -/
def digitChar (n : Nat) : Char :=
  match n with
  | 0 => '0' | 1 => '1' | 2 => '2' | 3 => '3' | 4 => '4'
  | 5 => '5' | 6 => '6' | 7 => '7' | 8 => '8' | _ => '9'

/-- Decimal digits of `n`, most significant first (`fuel`-bounded so that it
computes by structural recursion). -/
def natDigitsAux : Nat → Nat → List Char
  | 0, _ => []
  | fuel + 1, n =>
      if n < 10 then [digitChar n]
      else natDigitsAux fuel (n / 10) ++ [digitChar (n % 10)]

/-- Decimal digits of `n`, most significant first. -/
def natDigits (n : Nat) : List Char := natDigitsAux (n + 1) n

mutual

/-- Parse a full type: a primary type possibly extended by function-type
suffixes `(params)` (left-associatively, so `a (b) (c)` is the function
type returning `a (b)`). -/
def parseTy (fuel : Nat) (s : List Char) : Option (Ty × List Char) :=
  match fuel with
  | 0 => none
  | fuel + 1 =>
      match parsePrimary fuel s with
      | none => none
      | some (t, r) => parseFnSuffix fuel t r

/-- While the input continues with `( params )`, wrap the type parsed so far
into a function type. -/
def parseFnSuffix (fuel : Nat) (t : Ty) (s : List Char) : Option (Ty × List Char) :=
  match fuel with
  | 0 => none
  | fuel + 1 =>
      match skipWs s with
      | '(' :: r =>
          match parseParams fuel r with
          | none => none
          | some (ps, va, r2) => parseFnSuffix fuel (.Function t ps va) r2
      | _ => some (t, s)

/-- Parse a function-type parameter list after its opening parenthesis,
consuming the closing parenthesis: empty, `...` alone, or types separated
by commas with an optional trailing `, ...` setting `has_varargs`. -/
def parseParams (fuel : Nat) (s : List Char) : Option (List Ty × Bool × List Char) :=
  match fuel with
  | 0 => none
  | fuel + 1 =>
      match skipWs s with
      | ')' :: r => some ([], false, r)
      | '.' :: '.' :: '.' :: r =>
          (match skipWs r with
           | ')' :: r2 => some ([], true, r2)
           | _ => none)
      | s' =>
          match parseTy fuel s' with
          | none => none
          | some (t, r) =>
              match parseParamsRest fuel r with
              | none => none
              | some (ts, va, r2) => some (t :: ts, va, r2)

/-- After one parameter: close with `)`, or continue with `, ...` or a
further comma-separated parameter. -/
def parseParamsRest (fuel : Nat) (s : List Char) : Option (List Ty × Bool × List Char) :=
  match fuel with
  | 0 => none
  | fuel + 1 =>
      match skipWs s with
      | ')' :: r => some ([], false, r)
      | ',' :: r =>
          (match skipWs r with
           | '.' :: '.' :: '.' :: r2 =>
               (match skipWs r2 with
                | ')' :: r3 => some ([], true, r3)
                | _ => none)
           | s' =>
               match parseTy fuel s' with
               | none => none
               | some (t, r2) =>
                   match parseParamsRest fuel r2 with
                   | none => none
                   | some (ts, va, r3) => some (t :: ts, va, r3))
      | _ => none

/-- Parse a structure body after its opening brace, consuming the closing
brace: either `}` at once or comma-separated field types. -/
def parseFieldList (fuel : Nat) (s : List Char) : Option (List Ty × List Char) :=
  match fuel with
  | 0 => none
  | fuel + 1 =>
      match skipWs s with
      | '}' :: r => some ([], r)
      | s' =>
          match parseTy fuel s' with
          | none => none
          | some (t, r) =>
              match parseFieldRest fuel r with
              | none => none
              | some (ts, r2) => some (t :: ts, r2)

/-- After one field type: close with `}` or continue after a comma. -/
def parseFieldRest (fuel : Nat) (s : List Char) : Option (List Ty × List Char) :=
  match fuel with
  | 0 => none
  | fuel + 1 =>
      match skipWs s with
      | '}' :: r => some ([], r)
      | ',' :: r =>
          match parseTy fuel r with
          | none => none
          | some (t, r2) =>
              match parseFieldRest fuel r2 with
              | none => none
              | some (ts, r3) => some (t :: ts, r3)
      | _ => none

/-- Parse the rest of a target-extension parameter list (each parameter is
preceded by a comma; a leading digit makes it an integer parameter,
anything else a type parameter), consuming the closing parenthesis. -/
def parseTEParamsRest (fuel : Nat) (s : List Char) :
    Option (List TargetExtensionParameter × List Char) :=
  match fuel with
  | 0 => none
  | fuel + 1 =>
      match skipWs s with
      | ')' :: r => some ([], r)
      | ',' :: r =>
          match skipWs r with
          | [] => none
          | c :: cs =>
              if isDigitChar c then
                match parseNat (c :: cs) with
                | none => none
                | some (n, r2) =>
                    match parseTEParamsRest fuel r2 with
                    | none => none
                    | some (ps, r3) => some (.integer n :: ps, r3)
              else
                match parseTy fuel (c :: cs) with
                | none => none
                | some (t, r2) =>
                    match parseTEParamsRest fuel r2 with
                    | none => none
                    | some (ps, r3) => some (.type t :: ps, r3)
      | _ => none

/-- Parse `length x element_type >` — the tail of a vector type after `<`
(and after `vscale x` when present). -/
def parseVectorTail (fuel : Nat) (is_scalable : Bool) (s : List Char) :
    Option (Ty × List Char) :=
  match fuel with
  | 0 => none
  | fuel + 1 =>
      match parseNat (skipWs s) with
      | none => none
      | some (n, r) =>
          match skipWs r with
          | 'x' :: r2 =>
              match parseTy fuel r2 with
              | none => none
              | some (e, r3) =>
                  match skipWs r3 with
                  | '>' :: r4 => some (.Vector n e is_scalable, r4)
                  | _ => none
          | _ => none

/-- Parse a primary (suffix-free) type expression. -/
def parsePrimary (fuel : Nat) (s0 : List Char) : Option (Ty × List Char) :=
  match fuel with
  | 0 => none
  | fuel + 1 =>
      match skipWs s0 with
      | [] => none
      | '<' :: s1 =>
          (match skipWs s1 with
           | '{' :: s2 =>
               (match parseFieldList fuel s2 with
                | none => none
                | some (ts, r) =>
                    match skipWs r with
                    | '>' :: r2 => some (.Structure ts true, r2)
                    | _ => none)
           | s1' =>
               match eatLit ['v','s','c','a','l','e'] s1' with
               | some r =>
                   (match skipWs r with
                    | 'x' :: r2 => parseVectorTail fuel true r2
                    | _ => none)
               | none => parseVectorTail fuel false s1')
      | '[' :: s1 =>
          (match parseNat (skipWs s1) with
           | none => none
           | some (n, r) =>
               match skipWs r with
               | 'x' :: r2 =>
                   (match parseTy fuel r2 with
                    | none => none
                    | some (e, r3) =>
                        match skipWs r3 with
                        | ']' :: r4 => some (.Array n e, r4)
                        | _ => none)
               | _ => none)
      | '{' :: s1 =>
          (match parseFieldList fuel s1 with
           | none => none
           | some (ts, r) => some (.Structure ts false, r))
      | s =>
          match eatLit ['v','o','i','d'] s with
          | some r => some (.Void, r)
          | none =>
          match eatLit ['h','a','l','f'] s with
          | some r => some (.FloatingPoint .Binary16, r)
          | none =>
          match eatLit ['b','f','l','o','a','t'] s with
          | some r => some (.FloatingPoint .Brain, r)
          | none =>
          match eatLit ['f','l','o','a','t'] s with
          | some r => some (.FloatingPoint .Binary32, r)
          | none =>
          match eatLit ['d','o','u','b','l','e'] s with
          | some r => some (.FloatingPoint .Binary64, r)
          | none =>
          match eatLit ['f','p','1','2','8'] s with
          | some r => some (.FloatingPoint .Binary128, r)
          | none =>
          match eatLit ['x','8','6','_','f','p','8','0'] s with
          | some r => some (.FloatingPoint .X86Fp80, r)
          | none =>
          match eatLit ['p','p','c','_','f','p','1','2','8'] s with
          | some r => some (.FloatingPoint .PpcFp128, r)
          | none =>
          match eatLit ['x','8','6','_','a','m','x'] s with
          | some r => some (.AMX, r)
          | none =>
          match eatLit ['x','8','6','_','m','m','x'] s with
          | some r => some (.MMX, r)
          | none =>
          match eatLit ['l','a','b','e','l'] s with
          | some r => some (.Label, r)
          | none =>
          match eatLit ['t','o','k','e','n'] s with
          | some r => some (.Token, r)
          | none =>
          match eatLit ['m','e','t','a','d','a','t','a'] s with
          | some r => some (.Metadata, r)
          | none =>
          match eatLit ['p','t','r'] s with
          | some r =>
              (match eatLit ['a','d','d','r','s','p','a','c','e'] (skipWs r) with
               | none => some (.Pointer (.Numbered 0), r)
               | some r2 =>
                   match skipWs r2 with
                   | '(' :: r3 =>
                       (match skipWs r3 with
                        | '"' :: r4 =>
                            (match takeUntilQuote r4 with
                             | none => none
                             | some (cs, r5) =>
                                 match skipWs r5 with
                                 | ')' :: r6 => some (.Pointer (.Named (String.mk cs)), r6)
                                 | _ => none)
                        | s4 =>
                            match parseNat s4 with
                            | none => none
                            | some (n, r5) =>
                                match skipWs r5 with
                                | ')' :: r6 => some (.Pointer (.Numbered n), r6)
                                | _ => none)
                   | _ => none)
          | none =>
          match eatLit ['t','a','r','g','e','t'] s with
          | some r =>
              (match skipWs r with
               | '(' :: r2 =>
                   (match skipWs r2 with
                    | '"' :: r3 =>
                        (match takeUntilQuote r3 with
                         | none => none
                         | some (cs, r4) =>
                             match parseTEParamsRest fuel r4 with
                             | none => none
                             | some (ps, r5) => some (.TargetExtension (String.mk cs) ps, r5))
                    | _ => none)
               | _ => none)
          | none =>
          match s with
          | 'i' :: r =>
              (match parseNat r with
               | none => none
               | some (w, r2) => some (.Integer w, r2))
          | _ => none

end

/-- Modelled from the spec: `parse_type`, the type-expression parse entry
point of §6, over the §4.4 type grammar (the lalrpop grammar file is not
among the repository's files).  The fuel bound is generous: parsing a
printed type of length `L` needs well under `8 L + 16` steps. -/
def parse_type (s : String) : Option Ty :=
  match parseTy (8 * s.length + 16) s.data with
  | none => none
  | some (t, rest) =>
      match skipWs rest with
      | [] => some t
      | _ => none

mutual

/-- Modelled from the spec: the canonical printed form of a type, chosen to
match the grammar of §4.4 (LLVM's own rendering). -/
def printTy : Ty → List Char
  | .Void => ['v','o','i','d']
  | .Function r ps va => printTy r ++ [' ', '('] ++ printParams ps va ++ [')']
  | .Integer w => 'i' :: natDigits w
  | .FloatingPoint .Binary16 => ['h','a','l','f']
  | .FloatingPoint .Brain => ['b','f','l','o','a','t']
  | .FloatingPoint .Binary32 => ['f','l','o','a','t']
  | .FloatingPoint .Binary64 => ['d','o','u','b','l','e']
  | .FloatingPoint .Binary128 => ['f','p','1','2','8']
  | .FloatingPoint .X86Fp80 => ['x','8','6','_','f','p','8','0']
  | .FloatingPoint .PpcFp128 => ['p','p','c','_','f','p','1','2','8']
  | .AMX => ['x','8','6','_','a','m','x']
  | .MMX => ['x','8','6','_','m','m','x']
  | .Pointer (.Numbered 0) => ['p','t','r']
  | .Pointer (.Numbered (n+1)) =>
      ['p','t','r',' ','a','d','d','r','s','p','a','c','e','(']
        ++ natDigits (n+1) ++ [')']
  | .Pointer (.Named s) =>
      ['p','t','r',' ','a','d','d','r','s','p','a','c','e','(','"']
        ++ s.data ++ ['"',')']
  | .TargetExtension name ps =>
      ['t','a','r','g','e','t','(','"'] ++ name.data ++ ['"'] ++ printTEParams ps ++ [')']
  | .Vector l e false => '<' :: (natDigits l ++ [' ','x',' '] ++ printTy e ++ ['>'])
  | .Vector l e true =>
      ['<','v','s','c','a','l','e',' ','x',' ']
        ++ natDigits l ++ [' ','x',' '] ++ printTy e ++ ['>']
  | .Label => ['l','a','b','e','l']
  | .Token => ['t','o','k','e','n']
  | .Metadata => ['m','e','t','a','d','a','t','a']
  | .Array l e => '[' :: (natDigits l ++ [' ','x',' '] ++ printTy e ++ [']'])
  | .Structure [] false => ['{','}']
  | .Structure [] true => ['<','{','}','>']
  | .Structure (t :: ts) false =>
      ['{',' '] ++ printTy t ++ printFieldsRest ts ++ [' ','}']
  | .Structure (t :: ts) true =>
      ['<','{',' '] ++ printTy t ++ printFieldsRest ts ++ [' ','}','>']
  | .OpaqueStructure => ['o','p','a','q','u','e']

/-- Function-type parameter lists: empty, `...` alone, or the first
parameter followed by the rest. -/
def printParams : List Ty → Bool → List Char
  | [], false => []
  | [], true => ['.','.','.']
  | t :: ts, va => printTy t ++ printParamsRest ts va

/-- Parameters after the first, each preceded by `, `, with `, ...` when the
function has varargs. -/
def printParamsRest : List Ty → Bool → List Char
  | [], false => []
  | [], true => [',',' ','.','.','.']
  | t :: ts, va => [',',' '] ++ printTy t ++ printParamsRest ts va

/-- Structure fields after the first, each preceded by `, `. -/
def printFieldsRest : List Ty → List Char
  | [] => []
  | t :: ts => [',',' '] ++ printTy t ++ printFieldsRest ts

/-- Target-extension parameters, each preceded by `, `. -/
def printTEParams : List TargetExtensionParameter → List Char
  | [] => []
  | .type t :: ps => [',',' '] ++ printTy t ++ printTEParams ps
  | .integer n :: ps => [',',' '] ++ natDigits n ++ printTEParams ps

end

/-- Modelled from the spec: `print_type`, the canonical printing of a type
(§8 round-trip property). -/
def print_type (t : Ty) : String := String.mk (printTy t)

/-- The string contains no double-quote character (a quoted name with an
embedded quote cannot be re-read by the grammar). -/
def noQuote (s : String) : Bool := !(s.data.any (fun c => c == '"'))

mutual

/-- The types the modelled grammar can produce: every variant except
`OpaqueStructure` (which has no type syntax), with quote-free embedded
names. -/
def Ty.parseable : Ty → Bool
  | .Void => true
  | .Function r ps _ => Ty.parseable r && Ty.parseableList ps
  | .Integer _ => true
  | .FloatingPoint _ => true
  | .AMX => true
  | .MMX => true
  | .Pointer (.Numbered _) => true
  | .Pointer (.Named s) => noQuote s
  | .TargetExtension name ps => noQuote name && Ty.parseableTEs ps
  | .Vector _ e _ => Ty.parseable e
  | .Label => true
  | .Token => true
  | .Metadata => true
  | .Array _ e => Ty.parseable e
  | .Structure ts _ => Ty.parseableList ts
  | .OpaqueStructure => false

/-- `Ty.parseable` over a list of types. -/
def Ty.parseableList : List Ty → Bool
  | [] => true
  | t :: ts => Ty.parseable t && Ty.parseableList ts

/-- `Ty.parseable` over target-extension parameters. -/
def Ty.parseableTEs : List TargetExtensionParameter → Bool
  | [] => true
  | .type t :: ps => Ty.parseable t && Ty.parseableTEs ps
  | .integer _ :: ps => Ty.parseableTEs ps

end

mutual

/-- A parse-cost measure on types, used to bound the parser's fuel. -/
def sizeTy : Ty → Nat
  | .Void => 1
  | .Function r ps _ => sizeTy r + sizeTyList ps + 2
  | .Integer _ => 1
  | .FloatingPoint _ => 1
  | .AMX => 1
  | .MMX => 1
  | .Pointer _ => 1
  | .TargetExtension _ ps => sizeTEList ps + 2
  | .Vector _ e _ => sizeTy e + 2
  | .Label => 1
  | .Token => 1
  | .Metadata => 1
  | .Array _ e => sizeTy e + 2
  | .Structure ts _ => sizeTyList ts + 2
  | .OpaqueStructure => 1

/-- Parse cost of a type list. -/
def sizeTyList : List Ty → Nat
  | [] => 0
  | t :: ts => sizeTy t + sizeTyList ts + 2

/-- Parse cost of a target-extension parameter list. -/
def sizeTEList : List TargetExtensionParameter → Nat
  | [] => 0
  | .type t :: ps => sizeTy t + sizeTEList ps + 2
  | .integer _ :: ps => sizeTEList ps + 2

end

/-- Unfolding lemma for `skipWs` on a cons cell. -/
theorem skipWs_cons (c : Char) (s : List Char) :
    skipWs (c :: s) = if isWsChar c then skipWs s else c :: s := rfl

/-- `skipWs` drops a leading whitespace character. -/
theorem skipWs_ws {c : Char} (h : isWsChar c = true) (s : List Char) :
    skipWs (c :: s) = skipWs s := by rw [skipWs_cons, if_pos h]

/-- `skipWs` keeps a leading non-whitespace character. -/
theorem skipWs_not_ws {c : Char} (h : isWsChar c = false) (s : List Char) :
    skipWs (c :: s) = c :: s := by rw [skipWs_cons, h]; simp

/-- A digit character is not whitespace. -/
theorem not_ws_of_digit {c : Char} (h : isDigitChar c = true) : isWsChar c = false := by
  simp only [isDigitChar, Bool.and_eq_true, decide_eq_true_eq] at h
  simp only [isWsChar, Bool.or_eq_false_iff, beq_eq_false_iff_ne]
  omega

/-- A digit character differs from any concrete non-digit character. -/
theorem lit_ne_digit {c : Char} (h : isDigitChar c = true) {d : Char}
    (hd : isDigitChar d = false) : (d == c) = false := by
  simp only [beq_eq_false_iff_ne]
  intro he
  rw [he] at hd
  rw [h] at hd
  cases hd

/-- Consuming a literal off its own append. -/
theorem eatLit_self (l s : List Char) : eatLit l (l ++ s) = some s := by
  induction l with
  | nil => rfl
  | cons c l ih => simp [eatLit, ih]

/-- `natDigitsAux` produces only digit characters. -/
theorem natDigitsAux_digits (fuel n : Nat) :
    ∀ c ∈ natDigitsAux fuel n, isDigitChar c = true := by
  have hdig : ∀ m : Nat, m < 10 → isDigitChar (digitChar m) = true := by decide
  induction fuel generalizing n with
  | zero => intro c hc; cases hc
  | succ fuel ih =>
    intro c hc
    simp only [natDigitsAux] at hc
    split at hc
    · rw [List.mem_singleton] at hc
      subst hc
      exact hdig n (by omega)
    · rcases List.mem_append.mp hc with h | h
      · exact ih _ _ h
      · rw [List.mem_singleton] at h
        subst h
        exact hdig (n % 10) (Nat.mod_lt _ (by omega))

/-- `natDigits` produces only digit characters. -/
theorem natDigits_digits (n : Nat) : ∀ c ∈ natDigits n, isDigitChar c = true :=
  natDigitsAux_digits (n + 1) n

/-- `natDigitsAux` with positive fuel is nonempty. -/
theorem natDigitsAux_ne_nil (fuel n : Nat) (h : 0 < fuel) : natDigitsAux fuel n ≠ [] := by
  cases fuel with
  | zero => omega
  | succ fuel =>
    simp only [natDigitsAux]
    split
    · simp
    · simp

/-- `natDigits` is nonempty. -/
theorem natDigits_ne_nil (n : Nat) : natDigits n ≠ [] :=
  natDigitsAux_ne_nil (n + 1) n (by omega)

/-- The list is empty or does not start with a digit character. -/
def headNotDigit : List Char → Prop
  | [] => True
  | c :: _ => isDigitChar c = false

/-- `headNotDigit` holds of a cons whose head is not a digit. -/
theorem headNotDigit_cons (c : Char) (cs : List Char) (h : isDigitChar c = false) :
    headNotDigit (c :: cs) := h

/-- `takeDigits` splits an all-digit block off any non-digit continuation. -/
theorem takeDigits_append (ds rest : List Char)
    (hd : ∀ c ∈ ds, isDigitChar c = true)
    (hr : headNotDigit rest) :
    takeDigits (ds ++ rest) = (ds, rest) := by
  induction ds with
  | nil =>
    cases rest with
    | nil => rfl
    | cons c r =>
      simp only [List.nil_append, takeDigits]
      rw [show isDigitChar c = false from hr]
      simp
  | cons c ds ih =>
    have hc : isDigitChar c = true := hd c (by simp)
    have h2 := ih (fun x hx => hd x (by simp [hx]))
    simp only [List.cons_append, takeDigits, hc, if_true, List.append_eq, h2]

/-- `digitsToNat` over an append runs the accumulator through. -/
theorem digitsToNat_append (acc : Nat) (xs ys : List Char) :
    digitsToNat acc (xs ++ ys) = digitsToNat (digitsToNat acc xs) ys := by
  induction xs generalizing acc with
  | nil => rfl
  | cons c xs ih =>
    rw [List.cons_append]
    rw [show digitsToNat acc (c :: (xs ++ ys)) =
        digitsToNat (10 * acc + (c.toNat - 48)) (xs ++ ys) from rfl]
    rw [ih]
    rw [show digitsToNat acc (c :: xs) =
        digitsToNat (10 * acc + (c.toNat - 48)) xs from rfl]

/-- Numeric value of the digit character for `m < 10`. -/
theorem digitChar_val (m : Nat) (h : m < 10) : (digitChar m).toNat - 48 = m := by
  revert h
  revert m
  decide

/-- `digitsToNat` inverts `natDigitsAux` (with an accumulator). -/
theorem digitsToNat_natDigitsAux (fuel n acc : Nat) (h : n < fuel) :
    digitsToNat acc (natDigitsAux fuel n) =
      acc * 10 ^ (natDigitsAux fuel n).length + n := by
  induction fuel generalizing n acc with
  | zero => omega
  | succ fuel ih =>
    by_cases h10 : n < 10
    · rw [show natDigitsAux (fuel + 1) n = [digitChar n] from by
        rw [natDigitsAux, if_pos h10]]
      rw [show digitsToNat acc [digitChar n] = 10 * acc + ((digitChar n).toNat - 48) from rfl]
      rw [digitChar_val n h10]
      rw [show ([digitChar n] : List Char).length = 1 from rfl, pow_one]
      ring
    · rw [show natDigitsAux (fuel + 1) n =
          natDigitsAux fuel (n / 10) ++ [digitChar (n % 10)] from by
        rw [natDigitsAux, if_neg h10]]
      rw [digitsToNat_append]
      rw [ih (n / 10) acc (by omega)]
      rw [show ∀ X : Nat, digitsToNat X [digitChar (n % 10)] =
          10 * X + ((digitChar (n % 10)).toNat - 48) from fun X => rfl]
      rw [digitChar_val (n % 10) (Nat.mod_lt _ (by omega))]
      rw [List.length_append, List.length_singleton, pow_succ]
      have e1 : 10 * (acc * 10 ^ (natDigitsAux fuel (n / 10)).length + n / 10) + n % 10 =
          acc * (10 ^ (natDigitsAux fuel (n / 10)).length * 10) + (10 * (n / 10) + n % 10) := by
        ring
      rw [e1, Nat.div_add_mod]

/-- `digitsToNat` inverts `natDigits`. -/
theorem digitsToNat_natDigits (n : Nat) : digitsToNat 0 (natDigits n) = n := by
  have := digitsToNat_natDigitsAux (n + 1) n 0 (by omega)
  simpa using this

/-- The head of `natDigits n` is a digit (existence form). -/
theorem natDigits_head (n : Nat) :
    ∃ c cs, natDigits n = c :: cs ∧ isDigitChar c = true := by
  cases hnd : natDigits n with
  | nil => exact absurd hnd (natDigits_ne_nil n)
  | cons c cs =>
    exact ⟨c, cs, rfl, natDigits_digits n c (by rw [hnd]; simp)⟩

/-- Parsing the canonical digits of `n` followed by a non-digit remainder. -/
theorem parseNat_print (n : Nat) (rest : List Char)
    (hr : headNotDigit rest) :
    parseNat (natDigits n ++ rest) = some (n, rest) := by
  obtain ⟨c, cs, hnd, hc⟩ := natDigits_head n
  rw [hnd]
  unfold parseNat
  rw [takeDigits_append (c :: cs) rest (by rw [← hnd]; exact natDigits_digits n) hr]
  show some (digitsToNat 0 (c :: cs), rest) = some (n, rest)
  rw [← hnd, digitsToNat_natDigits]

/-- `takeUntilQuote` splits a quote-free block off at the closing quote. -/
theorem takeUntilQuote_append (cs rest : List Char)
    (h : cs.any (fun c => c == '"') = false) :
    takeUntilQuote (cs ++ '"' :: rest) = some (cs, rest) := by
  induction cs with
  | nil => simp [takeUntilQuote]
  | cons c cs ih =>
    simp only [List.any_cons, Bool.or_eq_false_iff] at h
    simp only [List.cons_append, takeUntilQuote, h.1, List.append_eq, ih h.2]
    simp

/-- What `takeUntilQuote` returns is quote-free. -/
theorem takeUntilQuote_sound (s cs r : List Char)
    (h : takeUntilQuote s = some (cs, r)) : cs.any (fun c => c == '"') = false := by
  induction s generalizing cs with
  | nil => cases h
  | cons c s ih =>
    simp only [takeUntilQuote] at h
    split at h
    · cases h
      simp
    · split at h
      · cases h
      · rename_i hne x cs' r' heq
        cases h
        simp only [List.any_cons, Bool.or_eq_false_iff]
        exact ⟨by simpa using hne, ih _ heq⟩

/-- Whether a type is a `Function` variant. -/
def isFnTy : Ty → Bool
  | .Function _ _ _ => true
  | _ => false

/-- The non-function head of a left-nested function-type spine. -/
def tyCore : Ty → Ty
  | .Function r _ _ => tyCore r
  | t => t

/-- The parameter lists of a left-nested function-type spine, innermost
first. -/
def tyArgs : Ty → List (List Ty × Bool)
  | .Function r ps va => tyArgs r ++ [(ps, va)]
  | _ => []

/-- Rebuild a function-type spine from its core and parameter lists. -/
def mkFn : Ty → List (List Ty × Bool) → Ty
  | c, [] => c
  | c, (ps, va) :: rest => mkFn (.Function c ps va) rest

/-- Printed form of a list of function-suffix parameter lists. -/
def printArgss : List (List Ty × Bool) → List Char
  | [] => []
  | (ps, va) :: rest => [' ', '('] ++ printParams ps va ++ [')'] ++ printArgss rest

/-- Parse cost of a list of function-suffix parameter lists. -/
def sizeArgs : List (List Ty × Bool) → Nat
  | [] => 0
  | (ps, _) :: rest => sizeTyList ps + 2 + sizeArgs rest

/-- `Ty.parseableList` over a list of function-suffix parameter lists. -/
def parseableArgs : List (List Ty × Bool) → Bool
  | [] => true
  | (ps, _) :: rest => Ty.parseableList ps && parseableArgs rest

/-- The core of a spine is never a function type. -/
theorem tyCore_not_fn : ∀ t : Ty, isFnTy (tyCore t) = false
  | .Void => rfl
  | .Function r _ _ => tyCore_not_fn r
  | .Integer _ => rfl
  | .FloatingPoint _ => rfl
  | .AMX => rfl
  | .MMX => rfl
  | .Pointer _ => rfl
  | .TargetExtension _ _ => rfl
  | .Vector _ _ _ => rfl
  | .Label => rfl
  | .Token => rfl
  | .Metadata => rfl
  | .Array _ _ => rfl
  | .Structure _ _ => rfl
  | .OpaqueStructure => rfl

/-- `mkFn` pushed through a snoc. -/
theorem mkFn_append (c : Ty) (xs : List (List Ty × Bool)) (ps : List Ty) (va : Bool) :
    mkFn c (xs ++ [(ps, va)]) = .Function (mkFn c xs) ps va := by
  induction xs generalizing c with
  | nil => rfl
  | cons x xs ih =>
    cases x
    simp only [List.cons_append, List.append_eq, mkFn, ih]

/-- Rebuilding the spine of `t` yields `t`. -/
theorem mkFn_core_args : ∀ t : Ty, mkFn (tyCore t) (tyArgs t) = t
  | .Void => rfl
  | .Function r ps va => by
      rw [show tyCore (.Function r ps va) = tyCore r from rfl]
      rw [show tyArgs (.Function r ps va) = tyArgs r ++ [(ps, va)] from rfl]
      rw [mkFn_append, mkFn_core_args r]
  | .Integer _ => rfl
  | .FloatingPoint _ => rfl
  | .AMX => rfl
  | .MMX => rfl
  | .Pointer _ => rfl
  | .TargetExtension _ _ => rfl
  | .Vector _ _ _ => rfl
  | .Label => rfl
  | .Token => rfl
  | .Metadata => rfl
  | .Array _ _ => rfl
  | .Structure _ _ => rfl
  | .OpaqueStructure => rfl

/-- `printArgss` distributes over append. -/
theorem printArgss_append (xs ys : List (List Ty × Bool)) :
    printArgss (xs ++ ys) = printArgss xs ++ printArgss ys := by
  induction xs with
  | nil => rfl
  | cons x xs ih => cases x; simp [printArgss, ih]

/-- The printed form of `t` is its printed core followed by its printed
suffix arguments. -/
theorem printTy_decomp : ∀ t : Ty, printTy t = printTy (tyCore t) ++ printArgss (tyArgs t)
  | .Void => rfl
  | .Function r ps va => by
      rw [show printTy (.Function r ps va) =
          printTy r ++ [' ', '('] ++ printParams ps va ++ [')'] from rfl]
      rw [show tyCore (.Function r ps va) = tyCore r from rfl]
      rw [show tyArgs (.Function r ps va) = tyArgs r ++ [(ps, va)] from rfl]
      rw [printArgss_append, printTy_decomp r]
      simp [printArgss]
  | .Integer _ => by simp [tyCore, tyArgs, printArgss]
  | .FloatingPoint _ => by simp [tyCore, tyArgs, printArgss]
  | .AMX => by simp [tyCore, tyArgs, printArgss]
  | .MMX => by simp [tyCore, tyArgs, printArgss]
  | .Pointer _ => by simp [tyCore, tyArgs, printArgss]
  | .TargetExtension _ _ => by simp [tyCore, tyArgs, printArgss]
  | .Vector _ _ _ => by simp [tyCore, tyArgs, printArgss]
  | .Label => rfl
  | .Token => rfl
  | .Metadata => rfl
  | .Array _ _ => by simp [tyCore, tyArgs, printArgss]
  | .Structure _ _ => by simp [tyCore, tyArgs, printArgss]
  | .OpaqueStructure => rfl

/-- `sizeArgs` distributes over append. -/
theorem sizeArgs_append (xs ys : List (List Ty × Bool)) :
    sizeArgs (xs ++ ys) = sizeArgs xs + sizeArgs ys := by
  induction xs with
  | nil => simp [sizeArgs]
  | cons x xs ih => cases x; simp [sizeArgs, ih]; omega

/-- The size of `t` is the size of its core plus the size of its suffix
arguments. -/
theorem sizeTy_decomp : ∀ t : Ty, sizeTy t = sizeTy (tyCore t) + sizeArgs (tyArgs t)
  | .Void => rfl
  | .Function r ps va => by
      rw [show sizeTy (.Function r ps va) = sizeTy r + sizeTyList ps + 2 from rfl]
      rw [show tyCore (.Function r ps va) = tyCore r from rfl]
      rw [show tyArgs (.Function r ps va) = tyArgs r ++ [(ps, va)] from rfl]
      rw [sizeArgs_append, sizeTy_decomp r]
      simp [sizeArgs]
      omega
  | .Integer _ => by simp [tyCore, tyArgs, sizeArgs]
  | .FloatingPoint _ => by simp [tyCore, tyArgs, sizeArgs]
  | .AMX => by simp [tyCore, tyArgs, sizeArgs]
  | .MMX => by simp [tyCore, tyArgs, sizeArgs]
  | .Pointer _ => by simp [tyCore, tyArgs, sizeArgs]
  | .TargetExtension _ _ => by simp [tyCore, tyArgs, sizeArgs]
  | .Vector _ _ _ => by simp [tyCore, tyArgs, sizeArgs]
  | .Label => rfl
  | .Token => rfl
  | .Metadata => rfl
  | .Array _ _ => by simp [tyCore, tyArgs, sizeArgs]
  | .Structure _ _ => by simp [tyCore, tyArgs, sizeArgs]
  | .OpaqueStructure => rfl

/-- `parseableArgs` distributes over append. -/
theorem parseableArgs_append (xs ys : List (List Ty × Bool)) :
    parseableArgs (xs ++ ys) = (parseableArgs xs && parseableArgs ys) := by
  induction xs with
  | nil => rfl
  | cons x xs ih => cases x; simp [parseableArgs, ih, Bool.and_assoc]

/-- A parseable type has a parseable core and parseable suffix arguments. -/
theorem parseable_decomp : ∀ t : Ty, Ty.parseable t = true →
    Ty.parseable (tyCore t) = true ∧ parseableArgs (tyArgs t) = true
  | .Void, h => ⟨h, rfl⟩
  | .Function r ps va, h => by
      rw [show Ty.parseable (.Function r ps va) =
          (Ty.parseable r && Ty.parseableList ps) from rfl] at h
      simp only [Bool.and_eq_true] at h
      rw [show tyCore (.Function r ps va) = tyCore r from rfl]
      rw [show tyArgs (.Function r ps va) = tyArgs r ++ [(ps, va)] from rfl]
      rw [parseableArgs_append]
      obtain ⟨h1, h2⟩ := parseable_decomp r h.1
      simp [h1, h2, parseableArgs, h.2]
  | .Integer _, h => ⟨h, rfl⟩
  | .FloatingPoint _, h => ⟨h, rfl⟩
  | .AMX, h => ⟨h, rfl⟩
  | .MMX, h => ⟨h, rfl⟩
  | .Pointer _, h => ⟨h, rfl⟩
  | .TargetExtension _ _, h => ⟨h, rfl⟩
  | .Vector _ _ _, h => ⟨h, rfl⟩
  | .Label, h => ⟨h, rfl⟩
  | .Token, h => ⟨h, rfl⟩
  | .Metadata, h => ⟨h, rfl⟩
  | .Array _ _, h => ⟨h, rfl⟩
  | .Structure _ _, h => ⟨h, rfl⟩
  | .OpaqueStructure, h => ⟨h, rfl⟩

/-- A character that can legitimately begin a printed type: not whitespace,
not a digit, and not one of the grammar's delimiter/punctuation
characters. -/
def goodStart (c : Char) : Bool :=
  !(isWsChar c) && !(isDigitChar c) &&
    !(c == ')' || c == ']' || c == '>' || c == ',' || c == '}' || c == '(' ||
      c == '.' || c == '"')

/-- The head of the character list is a `goodStart` character. -/
def headGood : List Char → Bool
  | [] => false
  | c :: _ => goodStart c

/-- `headGood` only looks at the head of an append. -/
theorem headGood_append {xs : List Char} (h : headGood xs = true) (ys : List Char) :
    headGood (xs ++ ys) = true := by
  cases xs with
  | nil => cases h
  | cons c cs => exact h

/-- Every printed type starts with a `goodStart` character. -/
theorem printTy_headGood : ∀ t : Ty, headGood (printTy t) = true
  | .Void => rfl
  | .Function r ps va => by
      rw [show printTy (.Function r ps va) =
          printTy r ++ ([' ', '('] ++ printParams ps va ++ [')']) from by
        simp [printTy]]
      exact headGood_append (printTy_headGood r) _
  | .Integer w => rfl
  | .FloatingPoint k => by cases k <;> rfl
  | .AMX => rfl
  | .MMX => rfl
  | .Pointer (.Numbered 0) => rfl
  | .Pointer (.Numbered (n+1)) => rfl
  | .Pointer (.Named s) => rfl
  | .TargetExtension _ _ => rfl
  | .Vector l e sc => by cases sc <;> rfl
  | .Label => rfl
  | .Token => rfl
  | .Metadata => rfl
  | .Array _ _ => rfl
  | .Structure ts p => by cases ts <;> cases p <;> rfl
  | .OpaqueStructure => rfl

/-- A printed type is nonempty and its head is kept by `skipWs`. -/
theorem skipWs_printTy (t : Ty) (rest : List Char) :
    skipWs (printTy t ++ rest) = printTy t ++ rest := by
  have h := printTy_headGood t
  cases hpt : printTy t with
  | nil => rw [hpt] at h; cases h
  | cons c cs =>
    rw [hpt] at h
    simp only [headGood, goodStart, Bool.and_eq_true, Bool.not_eq_true'] at h
    exact skipWs_not_ws h.1.1 _

/-- A delimiter character: one that can follow a complete type. -/
def delimChar (c : Char) : Bool :=
  c == ')' || c == ']' || c == '>' || c == ',' || c == '}' || c == '('

/-- A remainder in front of which a printed type can be recognised: its raw
head is not a digit (so number tokens cannot bleed into it) and its first
non-whitespace character, if any, is a delimiter. -/
def restOk (s : List Char) : Bool :=
  (match s with | [] => true | c :: _ => !(isDigitChar c))
    && (match skipWs s with | [] => true | c :: _ => delimChar c)

/-- A remainder that does not begin (after whitespace) with `(` — so it
cannot extend a type with a function suffix. -/
def noParen (s : List Char) : Bool :=
  match skipWs s with
  | c :: _ => !(c == '(')
  | [] => true

/-- `skipWs` is idempotent. -/
theorem skipWs_skipWs (s : List Char) : skipWs (skipWs s) = skipWs s := by
  induction s with
  | nil => rfl
  | cons c s ih =>
    by_cases h : isWsChar c = true
    · rw [skipWs_ws h, ih]
    · rw [skipWs_not_ws (by simp_all) s, skipWs_not_ws (by simp_all) s]

/-- `parsePrimary` only looks at the whitespace-stripped input. -/
theorem parsePrimary_skipWs (fuel : Nat) (s : List Char) :
    parsePrimary fuel s = parsePrimary fuel (skipWs s) := by
  cases fuel with
  | zero => rfl
  | succ fuel =>
    simp only [parsePrimary]
    rw [skipWs_skipWs]

/-- `parseTy` only looks at the whitespace-stripped input. -/
theorem parseTy_skipWs (fuel : Nat) (s : List Char) :
    parseTy fuel s = parseTy fuel (skipWs s) := by
  cases fuel with
  | zero => rfl
  | succ fuel =>
    simp only [parseTy]
    rw [parsePrimary_skipWs fuel s]

/-- Dropping one leading whitespace character does not change `parseTy`. -/
theorem parseTy_ws_cons {c : Char} (h : isWsChar c = true) (fuel : Nat) (s : List Char) :
    parseTy fuel (c :: s) = parseTy fuel s := by
  rw [parseTy_skipWs fuel (c :: s), skipWs_ws h, ← parseTy_skipWs]

/-- Unpacking `goodStart`. -/
theorem goodStart_props {c : Char} (h : goodStart c = true) :
    isWsChar c = false ∧ isDigitChar c = false ∧ (c == ')') = false ∧
    (c == ']') = false ∧ (c == '>') = false ∧ (c == ',') = false ∧
    (c == '}') = false ∧ (c == '(') = false ∧ (c == '.') = false ∧
    (c == '"') = false := by
  simp only [goodStart, Bool.and_eq_true, Bool.not_eq_true', Bool.or_eq_false_iff] at h
  tauto

/-- Every printed type is a cons whose head is a `goodStart` character. -/
theorem printTy_cons (t : Ty) :
    ∃ c cs, printTy t = c :: cs ∧ goodStart c = true := by
  have h := printTy_headGood t
  cases hpt : printTy t with
  | nil => rw [hpt] at h; cases h
  | cons c cs => rw [hpt] at h; exact ⟨c, cs, rfl, h⟩

/-- The raw head of a `restOk` remainder is not a digit. -/
theorem restOk_head_not_digit {s : List Char} (h : restOk s = true) :
    headNotDigit s := by
  simp only [restOk, Bool.and_eq_true] at h
  have h1 := h.1
  cases s with
  | nil => trivial
  | cons c cs => show isDigitChar c = false; simpa using h1

/-- The first non-whitespace character of a `restOk` remainder, if any, is a
delimiter. -/
theorem restOk_skip_delim {s : List Char} (h : restOk s = true) :
    match skipWs s with | [] => True | c :: _ => delimChar c = true := by
  simp only [restOk, Bool.and_eq_true] at h
  have h2 := h.2
  cases hsw : skipWs s with
  | nil => trivial
  | cons c cs => rw [hsw] at h2; simpa using h2

/-- A concrete non-delimiter character differs from any delimiter. -/
theorem lit_ne_of_delim {c : Char} (h : delimChar c = true) {d : Char}
    (hd : delimChar d = false) : (d == c) = false := by
  cases hbe : d == c with
  | false => rfl
  | true =>
    rw [show d = c from by simpa using hbe] at hd
    rw [h] at hd
    cases hd

/-- Every type has positive size. -/
theorem sizeTy_pos (t : Ty) : 1 ≤ sizeTy t := by
  cases t <;> simp [sizeTy]

/-- The `addrspace` peek fails on a `restOk` remainder. -/
theorem eatLit_addrspace_restOk {s : List Char} (h : restOk s = true) :
    eatLit ['a','d','d','r','s','p','a','c','e'] (skipWs s) = none := by
  have hd := restOk_skip_delim h
  cases hsw : skipWs s with
  | nil => rfl
  | cons c cs =>
    rw [hsw] at hd
    simp only at hd
    rw [show eatLit ['a','d','d','r','s','p','a','c','e'] (c :: cs) =
        if 'a' == c then eatLit ['d','d','r','s','p','a','c','e'] cs else none from rfl]
    rw [lit_ne_of_delim hd (by decide)]
    simp

/-- One step of `parseTy`. -/
theorem parseTy_step (f : Nat) (s : List Char) :
    parseTy (f + 1) s =
      (match parsePrimary f s with
       | none => none
       | some (t, r) => parseFnSuffix f t r) := rfl

/-- One step of `parseVectorTail`. -/
theorem parseVectorTail_step (f : Nat) (sc : Bool) (s : List Char) :
    parseVectorTail (f + 1) sc s =
      (match parseNat (skipWs s) with
       | none => none
       | some (n, r) =>
           match skipWs r with
           | 'x' :: r2 =>
               (match parseTy f r2 with
                | none => none
                | some (e, r3) =>
                    match skipWs r3 with
                    | '>' :: r4 => some (.Vector n e sc, r4)
                    | _ => none)
           | _ => none) := rfl

/-- `parseFnSuffix` stops on a remainder that does not continue with `(`. -/
theorem parseFnSuffix_no (f : Nat) (t : Ty) (s : List Char) (h : noParen s = true) :
    parseFnSuffix (f + 1) t s = some (t, s) := by
  simp only [parseFnSuffix]
  cases hsw : skipWs s with
  | nil => rfl
  | cons c cs =>
    rw [noParen, hsw] at h
    simp only [Bool.not_eq_eq_eq_not, Bool.not_true] at h
    split
    · rename_i r heq
      rw [List.cons.injEq] at heq
      rw [heq.1] at h
      simp at h
    · rfl

/-- `parseFnSuffix` takes one function suffix when the remainder continues
with `(`. -/
theorem parseFnSuffix_paren (f : Nat) (t : Ty) (s r : List Char)
    (h : skipWs s = '(' :: r) :
    parseFnSuffix (f + 1) t s =
      (match parseParams f r with
       | none => none
       | some (ps, va, r2) => parseFnSuffix f (.Function t ps va) r2) := by
  simp only [parseFnSuffix]
  rw [h]
  rfl

/-- `parseParams` on a first parameter that is a type. -/
theorem parseParams_default (f : Nat) (c : Char) (cs : List Char)
    (hws : isWsChar c = false) (h1 : (c == ')') = false) (h2 : (c == '.') = false) :
    parseParams (f + 1) (c :: cs) =
      (match parseTy f (c :: cs) with
       | none => none
       | some (t, r) =>
           match parseParamsRest f r with
           | none => none
           | some (ts, va, r2) => some (t :: ts, va, r2)) := by
  simp only [parseParams]
  rw [skipWs_not_ws hws]
  split
  · rename_i r heq
    rw [List.cons.injEq] at heq
    rw [heq.1] at h1
    simp at h1
  · rename_i r heq
    rw [List.cons.injEq] at heq
    rw [heq.1] at h2
    simp at h2
  · rfl

/-- One step of `parseParamsRest` after a comma. -/
theorem parseParamsRest_comma (f : Nat) (r : List Char) :
    parseParamsRest (f + 1) (',' :: r) =
      (match skipWs r with
       | '.' :: '.' :: '.' :: r2 =>
           (match skipWs r2 with
            | ')' :: r3 => some ([], true, r3)
            | _ => none)
       | s' =>
           match parseTy f s' with
           | none => none
           | some (t, r2) =>
               match parseParamsRest f r2 with
               | none => none
               | some (ts, va, r3) => some (t :: ts, va, r3)) := rfl

/-- One step of `parseFieldRest` after a comma. -/
theorem parseFieldRest_comma (f : Nat) (r : List Char) :
    parseFieldRest (f + 1) (',' :: r) =
      (match parseTy f r with
       | none => none
       | some (t, r2) =>
           match parseFieldRest f r2 with
           | none => none
           | some (ts, r3) => some (t :: ts, r3)) := rfl

/-- `parseFieldList` only looks at the whitespace-stripped input. -/
theorem parseFieldList_skipWs (fuel : Nat) (s : List Char) :
    parseFieldList fuel s = parseFieldList fuel (skipWs s) := by
  cases fuel with
  | zero => rfl
  | succ fuel =>
    simp only [parseFieldList]
    rw [skipWs_skipWs]

/-- `parseFieldList` on a first field that is a type. -/
theorem parseFieldList_default (f : Nat) (c : Char) (cs : List Char)
    (hws : isWsChar c = false) (hbr : (c == '}') = false) :
    parseFieldList (f + 1) (c :: cs) =
      (match parseTy f (c :: cs) with
       | none => none
       | some (t, r) =>
           match parseFieldRest f r with
           | none => none
           | some (ts, r2) => some (t :: ts, r2)) := by
  simp only [parseFieldList]
  rw [skipWs_not_ws hws]
  split
  · rename_i r heq
    rw [List.cons.injEq] at heq
    rw [heq.1] at hbr
    simp at hbr
  · rfl

/-- One step of `parseTEParamsRest` after a comma. -/
theorem parseTEParamsRest_comma (f : Nat) (r : List Char) :
    parseTEParamsRest (f + 1) (',' :: r) =
      (match skipWs r with
       | [] => none
       | c :: cs =>
           if isDigitChar c then
             match parseNat (c :: cs) with
             | none => none
             | some (n, r2) =>
                 match parseTEParamsRest f r2 with
                 | none => none
                 | some (ps, r3) => some (.integer n :: ps, r3)
           else
             match parseTy f (c :: cs) with
             | none => none
             | some (t, r2) =>
                 match parseTEParamsRest f r2 with
                 | none => none
                 | some (ps, r3) => some (.type t :: ps, r3)) := rfl

/-- `parsePrimary` on an integer type token. -/
theorem prim_step_i (f : Nat) (Z : List Char) :
    parsePrimary (f + 1) ('i' :: Z) =
      (match parseNat Z with
       | none => none
       | some (w, r2) => some (.Integer w, r2)) := rfl

/-- `parsePrimary` on a `ptr` token. -/
theorem prim_step_ptr (f : Nat) (Z : List Char) :
    parsePrimary (f + 1) ('p' :: 't' :: 'r' :: Z) =
      (match eatLit ['a','d','d','r','s','p','a','c','e'] (skipWs Z) with
       | none => some (.Pointer (.Numbered 0), Z)
       | some r2 =>
           match skipWs r2 with
           | '(' :: r3 =>
               (match skipWs r3 with
                | '"' :: r4 =>
                    (match takeUntilQuote r4 with
                     | none => none
                     | some (cs, r5) =>
                         match skipWs r5 with
                         | ')' :: r6 => some (.Pointer (.Named (String.mk cs)), r6)
                         | _ => none)
                | s4 =>
                    match parseNat s4 with
                    | none => none
                    | some (n, r5) =>
                        match skipWs r5 with
                        | ')' :: r6 => some (.Pointer (.Numbered n), r6)
                        | _ => none)
           | _ => none) := rfl

/-- `parsePrimary` on a `target("` head. -/
theorem prim_step_target (f : Nat) (Z : List Char) :
    parsePrimary (f + 1) ('t' :: 'a' :: 'r' :: 'g' :: 'e' :: 't' :: '(' :: '"' :: Z) =
      (match takeUntilQuote Z with
       | none => none
       | some (cs, r4) =>
           match parseTEParamsRest f r4 with
           | none => none
           | some (ps, r5) => some (.TargetExtension (String.mk cs) ps, r5)) := rfl

/-- `parsePrimary` on an array head. -/
theorem prim_step_bracket (f : Nat) (Z : List Char) :
    parsePrimary (f + 1) ('[' :: Z) =
      (match parseNat (skipWs Z) with
       | none => none
       | some (n, r) =>
           match skipWs r with
           | 'x' :: r2 =>
               (match parseTy f r2 with
                | none => none
                | some (e, r3) =>
                    match skipWs r3 with
                    | ']' :: r4 => some (.Array n e, r4)
                    | _ => none)
           | _ => none) := rfl

/-- `parsePrimary` on an unpacked structure head. -/
theorem prim_step_brace (f : Nat) (Z : List Char) :
    parsePrimary (f + 1) ('{' :: Z) =
      (match parseFieldList f Z with
       | none => none
       | some (ts, r) => some (.Structure ts false, r)) := rfl

/-- `parsePrimary` on a packed structure head. -/
theorem prim_step_packed (f : Nat) (Z : List Char) :
    parsePrimary (f + 1) ('<' :: '{' :: Z) =
      (match parseFieldList f Z with
       | none => none
       | some (ts, r) =>
           match skipWs r with
           | '>' :: r2 => some (.Structure ts true, r2)
           | _ => none) := rfl

/-- `parsePrimary` on a scalable vector head. -/
theorem prim_step_vscale (f : Nat) (Z : List Char) :
    parsePrimary (f + 1)
        ('<' :: 'v' :: 's' :: 'c' :: 'a' :: 'l' :: 'e' :: ' ' :: 'x' :: Z) =
      parseVectorTail f true Z := rfl

/-- `parsePrimary` on a fixed vector head (its length digit follows `<`
directly). -/
theorem prim_step_lt_digit (f : Nat) {c : Char} (cs : List Char)
    (hd : isDigitChar c = true) :
    parsePrimary (f + 1) ('<' :: c :: cs) = parseVectorTail f false (c :: cs) := by
  have he : eatLit ['v','s','c','a','l','e'] (c :: cs) = none := by
    rw [show eatLit ['v','s','c','a','l','e'] (c :: cs) =
        if 'v' == c then eatLit ['s','c','a','l','e'] cs else none from rfl]
    rw [lit_ne_digit hd (by decide)]
    simp
  show (match skipWs (c :: cs) with
        | '{' :: s2 =>
            (match parseFieldList f s2 with
             | none => none
             | some (ts, r) =>
                 match skipWs r with
                 | '>' :: r2 => some (Ty.Structure ts true, r2)
                 | _ => none)
        | s1' =>
            match eatLit ['v','s','c','a','l','e'] s1' with
            | some r =>
                (match skipWs r with
                 | 'x' :: r2 => parseVectorTail f true r2
                 | _ => none)
            | none => parseVectorTail f false s1') =
      parseVectorTail f false (c :: cs)
  rw [skipWs_not_ws (not_ws_of_digit hd)]
  split
  · rename_i s2 heq
    rw [List.cons.injEq] at heq
    obtain ⟨h1, -⟩ := heq
    subst h1
    cases hd
  · rw [he]

/-- The remainder after suffix-argument text still satisfies `restOk`. -/
theorem restOk_printArgss (argss : List (List Ty × Bool)) (rest : List Char)
    (h : restOk rest = true) : restOk (printArgss argss ++ rest) = true := by
  cases argss with
  | nil => simpa [printArgss] using h
  | cons a r => cases a; rfl

/-- Remainders produced inside parameter lists satisfy `restOk`. -/
theorem restOk_paramsRest (ts : List Ty) (va : Bool) (rest : List Char) :
    restOk (printParamsRest ts va ++ ')' :: rest) = true := by
  cases ts <;> cases va <;> rfl

/-- Remainders produced inside parameter lists satisfy `noParen`. -/
theorem noParen_paramsRest (ts : List Ty) (va : Bool) (rest : List Char) :
    noParen (printParamsRest ts va ++ ')' :: rest) = true := by
  cases ts <;> cases va <;> rfl

/-- Remainders produced inside structure bodies satisfy `restOk`. -/
theorem restOk_fieldsRest (ts : List Ty) (rest : List Char) :
    restOk (printFieldsRest ts ++ ' ' :: '}' :: rest) = true := by
  cases ts <;> rfl

/-- Remainders produced inside structure bodies satisfy `noParen`. -/
theorem noParen_fieldsRest (ts : List Ty) (rest : List Char) :
    noParen (printFieldsRest ts ++ ' ' :: '}' :: rest) = true := by
  cases ts <;> rfl

/-- Remainders produced inside target-extension parameter lists satisfy
`restOk`. -/
theorem restOk_teParams (ps : List TargetExtensionParameter) (rest : List Char) :
    restOk (printTEParams ps ++ ')' :: rest) = true := by
  cases ps with
  | nil => rfl
  | cons p ps => cases p <;> rfl

/-- Remainders produced inside target-extension parameter lists satisfy
`noParen`. -/
theorem noParen_teParams (ps : List TargetExtensionParameter) (rest : List Char) :
    noParen (printTEParams ps ++ ')' :: rest) = true := by
  cases ps with
  | nil => rfl
  | cons p ps => cases p <;> rfl

/-- The raw head of a target-extension parameter remainder is not a digit. -/
theorem teParams_head_not_digit (ps : List TargetExtensionParameter) (rest : List Char) :
    headNotDigit (printTEParams ps ++ ')' :: rest) := by
  cases ps with
  | nil => show isDigitChar ')' = false; decide
  | cons p ps => cases p <;> (show isDigitChar ',' = false; decide)

mutual

/-- Round trip, full types: parsing the canonical print of a parseable type
followed by a delimiter-headed remainder recovers the type exactly. -/
theorem pp_ty (t : Ty) (hp : Ty.parseable t = true) (fuel : Nat) (rest : List Char)
    (hf : 4 * sizeTy t + 8 < fuel) (h1 : restOk rest = true) (h2 : noParen rest = true) :
    parseTy fuel (printTy t ++ rest) = some (t, rest) := by
  obtain ⟨f, rfl⟩ : ∃ f, fuel = f + 1 := ⟨fuel - 1, by omega⟩
  obtain ⟨hpc, hpa⟩ := parseable_decomp t hp
  have hsz := sizeTy_decomp t
  have hpos := sizeTy_pos (tyCore t)
  rw [parseTy_step, printTy_decomp t, List.append_assoc]
  rw [pp_prim (tyCore t) (tyCore_not_fn t) hpc f (printArgss (tyArgs t) ++ rest)
      (by omega) (restOk_printArgss (tyArgs t) rest h1)]
  simp only []
  rw [pp_suffix (tyCore t) (tyArgs t) hpa f rest (by omega) h1 h2, mkFn_core_args t]
termination_by fuel
decreasing_by
  all_goals omega

/-- Round trip, function suffixes: the suffix loop folds printed parameter
lists onto the type parsed so far. -/
theorem pp_suffix (c : Ty) (argss : List (List Ty × Bool)) (hp : parseableArgs argss = true)
    (fuel : Nat) (rest : List Char) (hf : 4 * sizeArgs argss + 4 < fuel)
    (h1 : restOk rest = true) (h2 : noParen rest = true) :
    parseFnSuffix fuel c (printArgss argss ++ rest) = some (mkFn c argss, rest) := by
  obtain ⟨f, rfl⟩ : ∃ f, fuel = f + 1 := ⟨fuel - 1, by omega⟩
  cases argss with
  | nil =>
    simp only [printArgss, List.nil_append]
    rw [parseFnSuffix_no f c rest h2]
    rfl
  | cons a argss' =>
    obtain ⟨ps, va⟩ := a
    have hp' : Ty.parseableList ps = true ∧ parseableArgs argss' = true := by
      simpa [parseableArgs, Bool.and_eq_true] using hp
    have hsz : sizeArgs ((ps, va) :: argss') = sizeTyList ps + 2 + sizeArgs argss' := by
      simp [sizeArgs]
    rw [show printArgss ((ps, va) :: argss') ++ rest =
        ' ' :: '(' :: (printParams ps va ++ ')' :: (printArgss argss' ++ rest)) from by
      simp [printArgss]]
    rw [parseFnSuffix_paren f c _ _ (by
      rw [skipWs_ws (by decide), skipWs_not_ws (by decide)])]
    rw [pp_params ps va hp'.1 f (printArgss argss' ++ rest) (by omega)]
    simp only []
    rw [pp_suffix (.Function c ps va) argss' hp'.2 f rest (by omega) h1 h2]
    rfl
termination_by fuel
decreasing_by
  all_goals omega

/-- Round trip, parameter lists (with the closing parenthesis). -/
theorem pp_params (ps : List Ty) (va : Bool) (hp : Ty.parseableList ps = true)
    (fuel : Nat) (rest : List Char) (hf : 4 * sizeTyList ps + 4 < fuel) :
    parseParams fuel (printParams ps va ++ ')' :: rest) = some (ps, va, rest) := by
  obtain ⟨f, rfl⟩ : ∃ f, fuel = f + 1 := ⟨fuel - 1, by omega⟩
  cases ps with
  | nil => cases va <;> rfl
  | cons t ts =>
    have hp' : Ty.parseable t = true ∧ Ty.parseableList ts = true := by
      simpa [Ty.parseableList, Bool.and_eq_true] using hp
    have hsz : sizeTyList (t :: ts) = sizeTy t + sizeTyList ts + 2 := by
      simp [sizeTyList]
    obtain ⟨c, cs, hpt, hgs⟩ := printTy_cons t
    obtain ⟨hws, hdig, hpar, _, _, _, _, _, hdot, _⟩ := goodStart_props hgs
    rw [show printParams (t :: ts) va ++ ')' :: rest =
        printTy t ++ (printParamsRest ts va ++ ')' :: rest) from by
      simp [printParams]]
    rw [hpt, List.cons_append]
    rw [parseParams_default f c (cs ++ (printParamsRest ts va ++ ')' :: rest)) hws hpar hdot]
    rw [← List.cons_append, ← hpt]
    rw [pp_ty t hp'.1 f (printParamsRest ts va ++ ')' :: rest) (by omega)
      (restOk_paramsRest ts va rest) (noParen_paramsRest ts va rest)]
    simp only []
    rw [pp_paramsRest ts va hp'.2 f rest (by omega)]
termination_by fuel
decreasing_by
  all_goals omega

/-- Round trip, parameter-list tails. -/
theorem pp_paramsRest (ps : List Ty) (va : Bool) (hp : Ty.parseableList ps = true)
    (fuel : Nat) (rest : List Char) (hf : 4 * sizeTyList ps + 4 < fuel) :
    parseParamsRest fuel (printParamsRest ps va ++ ')' :: rest) = some (ps, va, rest) := by
  obtain ⟨f, rfl⟩ : ∃ f, fuel = f + 1 := ⟨fuel - 1, by omega⟩
  cases ps with
  | nil => cases va <;> rfl
  | cons t ts =>
    have hp' : Ty.parseable t = true ∧ Ty.parseableList ts = true := by
      simpa [Ty.parseableList, Bool.and_eq_true] using hp
    have hsz : sizeTyList (t :: ts) = sizeTy t + sizeTyList ts + 2 := by
      simp [sizeTyList]
    obtain ⟨c, cs, hpt, hgs⟩ := printTy_cons t
    obtain ⟨hws, hdig, hpar, _, _, _, _, _, hdot, _⟩ := goodStart_props hgs
    rw [show printParamsRest (t :: ts) va ++ ')' :: rest =
        ',' :: ' ' :: (printTy t ++ (printParamsRest ts va ++ ')' :: rest)) from by
      simp [printParamsRest]]
    rw [parseParamsRest_comma]
    rw [skipWs_ws (by decide), skipWs_printTy]
    rw [hpt, List.cons_append]
    split
    · rename_i r2 heq
      rw [List.cons.injEq] at heq
      rw [heq.1] at hdot
      simp at hdot
    · rw [← List.cons_append, ← hpt]
      rw [pp_ty t hp'.1 f (printParamsRest ts va ++ ')' :: rest) (by omega)
        (restOk_paramsRest ts va rest) (noParen_paramsRest ts va rest)]
      simp only []
      rw [pp_paramsRest ts va hp'.2 f rest (by omega)]
termination_by fuel
decreasing_by
  all_goals omega

/-- Round trip, structure-field tails (with the closing ` }`). -/
theorem pp_fieldRest (ts : List Ty) (hp : Ty.parseableList ts = true)
    (fuel : Nat) (rest : List Char) (hf : 4 * sizeTyList ts + 4 < fuel) :
    parseFieldRest fuel (printFieldsRest ts ++ ' ' :: '}' :: rest) = some (ts, rest) := by
  obtain ⟨f, rfl⟩ : ∃ f, fuel = f + 1 := ⟨fuel - 1, by omega⟩
  cases ts with
  | nil => rfl
  | cons t ts =>
    have hp' : Ty.parseable t = true ∧ Ty.parseableList ts = true := by
      simpa [Ty.parseableList, Bool.and_eq_true] using hp
    have hsz : sizeTyList (t :: ts) = sizeTy t + sizeTyList ts + 2 := by
      simp [sizeTyList]
    rw [show printFieldsRest (t :: ts) ++ ' ' :: '}' :: rest =
        ',' :: ' ' :: (printTy t ++ (printFieldsRest ts ++ ' ' :: '}' :: rest)) from by
      simp [printFieldsRest]]
    rw [parseFieldRest_comma]
    rw [parseTy_ws_cons (by decide)]
    rw [pp_ty t hp'.1 f (printFieldsRest ts ++ ' ' :: '}' :: rest) (by omega)
      (restOk_fieldsRest ts rest) (noParen_fieldsRest ts rest)]
    simp only []
    rw [pp_fieldRest ts hp'.2 f rest (by omega)]
termination_by fuel
decreasing_by
  all_goals omega

/-- Round trip, target-extension parameter tails (with the closing `)`). -/
theorem pp_teRest (ps : List TargetExtensionParameter) (hp : Ty.parseableTEs ps = true)
    (fuel : Nat) (rest : List Char) (hf : 4 * sizeTEList ps + 4 < fuel) :
    parseTEParamsRest fuel (printTEParams ps ++ ')' :: rest) = some (ps, rest) := by
  obtain ⟨f, rfl⟩ : ∃ f, fuel = f + 1 := ⟨fuel - 1, by omega⟩
  cases ps with
  | nil => rfl
  | cons p ps =>
    cases p with
    | type t =>
      have hp' : Ty.parseable t = true ∧ Ty.parseableTEs ps = true := by
        simpa [Ty.parseableTEs, Bool.and_eq_true] using hp
      have hsz : sizeTEList (.type t :: ps) = sizeTy t + sizeTEList ps + 2 := by
        simp [sizeTEList]
      obtain ⟨c, cs, hpt, hgs⟩ := printTy_cons t
      obtain ⟨hws, hdig, _, _, _, _, _, _, _, _⟩ := goodStart_props hgs
      rw [show printTEParams (.type t :: ps) ++ ')' :: rest =
          ',' :: ' ' :: (printTy t ++ (printTEParams ps ++ ')' :: rest)) from by
        simp [printTEParams]]
      rw [parseTEParamsRest_comma]
      rw [skipWs_ws (by decide), skipWs_printTy]
      rw [hpt, List.cons_append]
      simp only []
      rw [hdig]
      simp only [Bool.false_eq_true, if_false]
      rw [← List.cons_append, ← hpt]
      rw [pp_ty t hp'.1 f (printTEParams ps ++ ')' :: rest) (by omega)
        (restOk_teParams ps rest) (noParen_teParams ps rest)]
      simp only []
      rw [pp_teRest ps hp'.2 f rest (by omega)]
    | integer n =>
      have hp' : Ty.parseableTEs ps = true := by
        simpa [Ty.parseableTEs] using hp
      have hsz : sizeTEList (.integer n :: ps) = sizeTEList ps + 2 := by
        simp [sizeTEList]
      obtain ⟨c, cs, hnd, hc⟩ := natDigits_head n
      rw [show printTEParams (.integer n :: ps) ++ ')' :: rest =
          ',' :: ' ' :: (natDigits n ++ (printTEParams ps ++ ')' :: rest)) from by
        simp [printTEParams]]
      rw [parseTEParamsRest_comma]
      rw [skipWs_ws (by decide)]
      rw [hnd, List.cons_append, skipWs_not_ws (not_ws_of_digit hc)]
      simp only []
      rw [hc]
      simp only [if_true]
      rw [← List.cons_append, ← hnd]
      rw [parseNat_print n (printTEParams ps ++ ')' :: rest) (teParams_head_not_digit ps rest)]
      simp only []
      rw [pp_teRest ps hp' f rest (by omega)]
termination_by fuel
decreasing_by
  all_goals omega

/-- Round trip, the `length x element >` tail of a vector type. -/
theorem pp_vecTail (l : Nat) (e : Ty) (sc : Bool) (hp : Ty.parseable e = true)
    (fuel : Nat) (s rest : List Char) (hf : 4 * sizeTy e + 9 < fuel)
    (h1 : restOk rest = true)
    (hs : skipWs s = natDigits l ++ (' ' :: 'x' :: ' ' :: (printTy e ++ '>' :: rest))) :
    parseVectorTail fuel sc s = some (.Vector l e sc, rest) := by
  obtain ⟨f, rfl⟩ : ∃ f, fuel = f + 1 := ⟨fuel - 1, by omega⟩
  rw [parseVectorTail_step, hs]
  rw [parseNat_print l (' ' :: 'x' :: ' ' :: (printTy e ++ '>' :: rest))
    (headNotDigit_cons _ _ (by decide))]
  simp only []
  rw [skipWs_ws (by decide), skipWs_not_ws (by decide)]
  simp only []
  rw [parseTy_ws_cons (by decide)]
  rw [pp_ty e hp f ('>' :: rest) (by omega) (by rfl) (by rfl)]
  simp only []
  rw [skipWs_not_ws (by decide)]
  rfl
termination_by fuel
decreasing_by
  all_goals omega

/-- Round trip, primary (suffix-free) types. -/
theorem pp_prim (t : Ty) (hnf : isFnTy t = false) (hp : Ty.parseable t = true)
    (fuel : Nat) (rest : List Char) (hf : 4 * sizeTy t + 4 < fuel)
    (h1 : restOk rest = true) :
    parsePrimary fuel (printTy t ++ rest) = some (t, rest) := by
  obtain ⟨f, rfl⟩ : ∃ f, fuel = f + 1 := ⟨fuel - 1, by omega⟩
  cases t with
  | Function r ps va => cases hnf
  | Void => rfl
  | FloatingPoint k => cases k <;> rfl
  | AMX => rfl
  | MMX => rfl
  | Label => rfl
  | Token => rfl
  | Metadata => rfl
  | OpaqueStructure => rw [Ty.parseable] at hp; cases hp
  | Integer w =>
    rw [show printTy (.Integer w) ++ rest = 'i' :: (natDigits w ++ rest) from rfl]
    rw [prim_step_i]
    rw [parseNat_print w rest (restOk_head_not_digit h1)]
  | Pointer a =>
    cases a with
    | Numbered n =>
      cases n with
      | zero =>
        rw [show printTy (.Pointer (.Numbered 0)) ++ rest =
            'p' :: 't' :: 'r' :: rest from rfl]
        rw [prim_step_ptr, eatLit_addrspace_restOk h1]
      | succ m =>
        obtain ⟨c, cs, hnd, hc⟩ := natDigits_head (m + 1)
        rw [show printTy (.Pointer (.Numbered (m + 1))) ++ rest =
            'p' :: 't' :: 'r' :: (' ' :: 'a' :: 'd' :: 'd' :: 'r' :: 's' :: 'p' :: 'a' ::
              'c' :: 'e' :: '(' :: (natDigits (m + 1) ++ ')' :: rest)) from by
          simp [printTy]]
        rw [prim_step_ptr]
        rw [show skipWs (' ' :: 'a' :: 'd' :: 'd' :: 'r' :: 's' :: 'p' :: 'a' :: 'c' ::
            'e' :: '(' :: (natDigits (m + 1) ++ ')' :: rest)) =
              'a' :: 'd' :: 'd' :: 'r' :: 's' :: 'p' :: 'a' :: 'c' :: 'e' :: '(' ::
                (natDigits (m + 1) ++ ')' :: rest) from by
          rw [skipWs_ws (by decide), skipWs_not_ws (by decide)]]
        rw [show eatLit ['a','d','d','r','s','p','a','c','e']
            ('a' :: 'd' :: 'd' :: 'r' :: 's' :: 'p' :: 'a' :: 'c' :: 'e' :: '(' ::
              (natDigits (m + 1) ++ ')' :: rest)) =
            some ('(' :: (natDigits (m + 1) ++ ')' :: rest)) from rfl]
        simp only []
        rw [skipWs_not_ws (by decide)]
        simp only []
        rw [hnd, List.cons_append, skipWs_not_ws (not_ws_of_digit hc)]
        split
        · rename_i r4 heq
          rw [List.cons.injEq] at heq
          rw [heq.1] at hc
          cases hc
        · rw [← List.cons_append, ← hnd]
          rw [parseNat_print (m + 1) (')' :: rest) (headNotDigit_cons _ _ (by decide))]
          simp only []
          rw [skipWs_not_ws (by decide)]
          rfl
    | Named nm =>
      have hq : nm.data.any (fun c => c == '"') = false := by
        simpa [Ty.parseable, noQuote] using hp
      rw [show printTy (.Pointer (.Named nm)) ++ rest =
          'p' :: 't' :: 'r' :: (' ' :: 'a' :: 'd' :: 'd' :: 'r' :: 's' :: 'p' :: 'a' ::
            'c' :: 'e' :: '(' :: '"' :: (nm.data ++ '"' :: ')' :: rest)) from by
        simp [printTy]]
      rw [prim_step_ptr]
      rw [show skipWs (' ' :: 'a' :: 'd' :: 'd' :: 'r' :: 's' :: 'p' :: 'a' :: 'c' ::
          'e' :: '(' :: '"' :: (nm.data ++ '"' :: ')' :: rest)) =
            'a' :: 'd' :: 'd' :: 'r' :: 's' :: 'p' :: 'a' :: 'c' :: 'e' :: '(' :: '"' ::
              (nm.data ++ '"' :: ')' :: rest) from by
        rw [skipWs_ws (by decide), skipWs_not_ws (by decide)]]
      rw [show eatLit ['a','d','d','r','s','p','a','c','e']
          ('a' :: 'd' :: 'd' :: 'r' :: 's' :: 'p' :: 'a' :: 'c' :: 'e' :: '(' :: '"' ::
            (nm.data ++ '"' :: ')' :: rest)) =
          some ('(' :: '"' :: (nm.data ++ '"' :: ')' :: rest)) from rfl]
      simp only []
      rw [skipWs_not_ws (by decide)]
      simp only []
      rw [skipWs_not_ws (by decide)]
      simp only []
      rw [takeUntilQuote_append nm.data (')' :: rest) hq]
      simp only []
      rw [skipWs_not_ws (by decide)]
      rfl
  | TargetExtension nm ps =>
    have hp' : nm.data.any (fun c => c == '"') = false ∧ Ty.parseableTEs ps = true := by
      simpa [Ty.parseable, noQuote, Bool.and_eq_true] using hp
    rw [show printTy (.TargetExtension nm ps) ++ rest =
        't' :: 'a' :: 'r' :: 'g' :: 'e' :: 't' :: '(' :: '"' ::
          (nm.data ++ '"' :: (printTEParams ps ++ ')' :: rest)) from by
      simp [printTy]]
    rw [prim_step_target]
    rw [takeUntilQuote_append nm.data (printTEParams ps ++ ')' :: rest) hp'.1]
    simp only []
    rw [pp_teRest ps hp'.2 f rest (by
      have : sizeTy (Ty.TargetExtension nm ps) = sizeTEList ps + 2 := by simp [sizeTy]
      omega)]
  | Vector l e sc =>
    have hp' : Ty.parseable e = true := by simpa [Ty.parseable] using hp
    have hsz : sizeTy (Ty.Vector l e sc) = sizeTy e + 2 := by simp [sizeTy]
    cases sc with
    | false =>
      obtain ⟨c, cs, hnd, hc⟩ := natDigits_head l
      rw [show printTy (.Vector l e false) ++ rest =
          '<' :: (natDigits l ++ (' ' :: 'x' :: ' ' :: (printTy e ++ '>' :: rest))) from by
        simp [printTy]]
      rw [hnd, List.cons_append]
      rw [prim_step_lt_digit f _ hc]
      rw [← List.cons_append, ← hnd]
      rw [pp_vecTail l e false hp' f _ rest (by omega) h1 (by
        rw [hnd, List.cons_append, skipWs_not_ws (not_ws_of_digit hc), ← List.cons_append, ← hnd])]
    | true =>
      rw [show printTy (.Vector l e true) ++ rest =
          '<' :: 'v' :: 's' :: 'c' :: 'a' :: 'l' :: 'e' :: ' ' :: 'x' ::
            (' ' :: (natDigits l ++ (' ' :: 'x' :: ' ' :: (printTy e ++ '>' :: rest)))) from by
        simp [printTy]]
      rw [prim_step_vscale]
      obtain ⟨c, cs, hnd, hc⟩ := natDigits_head l
      rw [pp_vecTail l e true hp' f _ rest (by omega) h1 (by
        rw [skipWs_ws (by decide)]
        rw [hnd, List.cons_append, skipWs_not_ws (not_ws_of_digit hc), ← List.cons_append, ← hnd])]
  | Array l e =>
    have hp' : Ty.parseable e = true := by simpa [Ty.parseable] using hp
    have hsz : sizeTy (Ty.Array l e) = sizeTy e + 2 := by simp [sizeTy]
    obtain ⟨c, cs, hnd, hc⟩ := natDigits_head l
    rw [show printTy (.Array l e) ++ rest =
        '[' :: (natDigits l ++ (' ' :: 'x' :: ' ' :: (printTy e ++ ']' :: rest))) from by
      simp [printTy]]
    rw [prim_step_bracket]
    rw [hnd, List.cons_append, skipWs_not_ws (not_ws_of_digit hc), ← List.cons_append, ← hnd]
    rw [parseNat_print l (' ' :: 'x' :: ' ' :: (printTy e ++ ']' :: rest))
      (headNotDigit_cons _ _ (by decide))]
    simp only []
    rw [skipWs_ws (by decide), skipWs_not_ws (by decide)]
    simp only []
    rw [parseTy_ws_cons (by decide)]
    rw [pp_ty e hp' f (']' :: rest) (by omega) (by rfl) (by rfl)]
    simp only []
    rw [skipWs_not_ws (by decide)]
    rfl
  | Structure ts packed =>
    have hp' : Ty.parseableList ts = true := by simpa [Ty.parseable] using hp
    have hsz : sizeTy (Ty.Structure ts packed) = sizeTyList ts + 2 := by simp [sizeTy]
    cases ts with
    | nil =>
      obtain ⟨g, rfl⟩ : ∃ g, f = g + 1 := ⟨f - 1, by omega⟩
      cases packed with
      | false =>
        rw [show printTy (.Structure ([] : List Ty) false) = ['{', '}'] from by
          simp [printTy]]
        rfl
      | true =>
        rw [show printTy (.Structure ([] : List Ty) true) = ['<', '{', '}', '>'] from by
          simp [printTy]]
        rfl
    | cons t ts =>
      have hp2 : Ty.parseable t = true ∧ Ty.parseableList ts = true := by
        simpa [Ty.parseableList, Bool.and_eq_true] using hp'
      have hsz2 : sizeTyList (t :: ts) = sizeTy t + sizeTyList ts + 2 := by
        simp [sizeTyList]
      obtain ⟨c, cs, hpt, hgs⟩ := printTy_cons t
      obtain ⟨hws, hdig, _, _, _, _, hbr, _, _, _⟩ := goodStart_props hgs
      obtain ⟨g, rfl⟩ : ∃ g, f = g + 1 := ⟨f - 1, by omega⟩
      cases packed with
      | false =>
        rw [show printTy (.Structure (t :: ts) false) ++ rest =
            '{' :: (' ' :: (printTy t ++ (printFieldsRest ts ++ ' ' :: '}' :: rest))) from by
          simp [printTy]]
        rw [prim_step_brace]
        rw [show parseFieldList (g + 1)
            (' ' :: (printTy t ++ (printFieldsRest ts ++ ' ' :: '}' :: rest))) =
            parseFieldList (g + 1)
              (printTy t ++ (printFieldsRest ts ++ ' ' :: '}' :: rest)) from by
          rw [parseFieldList_skipWs, skipWs_ws (by decide), skipWs_printTy]]
        rw [hpt, List.cons_append]
        rw [parseFieldList_default g c _ hws hbr]
        rw [← List.cons_append, ← hpt]
        rw [pp_ty t hp2.1 g (printFieldsRest ts ++ ' ' :: '}' :: rest) (by omega)
          (restOk_fieldsRest ts rest) (noParen_fieldsRest ts rest)]
        simp only []
        rw [pp_fieldRest ts hp2.2 g rest (by omega)]
      | true =>
        rw [show printTy (.Structure (t :: ts) true) ++ rest =
            '<' :: '{' :: (' ' :: (printTy t ++
              (printFieldsRest ts ++ ' ' :: '}' :: ('>' :: rest)))) from by
          simp [printTy]]
        rw [prim_step_packed]
        rw [show parseFieldList (g + 1)
            (' ' :: (printTy t ++ (printFieldsRest ts ++ ' ' :: '}' :: ('>' :: rest)))) =
            parseFieldList (g + 1)
              (printTy t ++ (printFieldsRest ts ++ ' ' :: '}' :: ('>' :: rest))) from by
          rw [parseFieldList_skipWs, skipWs_ws (by decide), skipWs_printTy]]
        rw [hpt, List.cons_append]
        rw [parseFieldList_default g c _ hws hbr]
        rw [← List.cons_append, ← hpt]
        rw [pp_ty t hp2.1 g (printFieldsRest ts ++ ' ' :: '}' :: ('>' :: rest))
          (by omega) (restOk_fieldsRest ts ('>' :: rest)) (noParen_fieldsRest ts ('>' :: rest))]
        simp only []
        rw [pp_fieldRest ts hp2.2 g ('>' :: rest) (by omega)]
        simp only []
        rw [skipWs_not_ws (by decide)]
        rfl
termination_by fuel
decreasing_by
  all_goals omega

end

/-- Every type any of the fueled parser functions produces is `Ty.parseable`
(names come quote-free out of `takeUntilQuote`, and `OpaqueStructure` is
never produced). -/
theorem parse_sound (fuel : Nat) :
    (∀ s t r, parseTy fuel s = some (t, r) → Ty.parseable t = true) ∧
    (∀ c s t r, parseFnSuffix fuel c s = some (t, r) →
        Ty.parseable c = true → Ty.parseable t = true) ∧
    (∀ s ps va r, parseParams fuel s = some (ps, va, r) → Ty.parseableList ps = true) ∧
    (∀ s ps va r, parseParamsRest fuel s = some (ps, va, r) → Ty.parseableList ps = true) ∧
    (∀ s ts r, parseFieldList fuel s = some (ts, r) → Ty.parseableList ts = true) ∧
    (∀ s ts r, parseFieldRest fuel s = some (ts, r) → Ty.parseableList ts = true) ∧
    (∀ s ps r, parseTEParamsRest fuel s = some (ps, r) → Ty.parseableTEs ps = true) ∧
    (∀ sc s t r, parseVectorTail fuel sc s = some (t, r) → Ty.parseable t = true) ∧
    (∀ s t r, parsePrimary fuel s = some (t, r) → Ty.parseable t = true) := by
  induction fuel with
  | zero =>
    refine ⟨?_, ?_, ?_, ?_, ?_, ?_, ?_, ?_, ?_⟩ <;>
      · intros
        simp_all [parseTy, parseFnSuffix, parseParams, parseParamsRest, parseFieldList,
          parseFieldRest, parseTEParamsRest, parseVectorTail, parsePrimary]
  | succ fuel ih =>
    obtain ⟨ih_ty, ih_suf, ih_params, ih_prest, ih_fl, ih_fr, ih_te, ih_vt, ih_prim⟩ := ih
    refine ⟨?_, ?_, ?_, ?_, ?_, ?_, ?_, ?_, ?_⟩
    · intro s t r h
      simp only [parseTy] at h
      split at h
      · cases h
      · rename_i t0 r0 heq
        exact ih_suf t0 r0 t r h (ih_prim s t0 r0 heq)
    · intro c s t r h hc
      simp only [parseFnSuffix] at h
      split at h
      · split at h
        · cases h
        · rename_i ps va r2 heq
          refine ih_suf _ _ _ _ h ?_
          simp [Ty.parseable, hc, ih_params _ _ _ _ heq]
      · simp only [Option.some.injEq, Prod.mk.injEq] at h
        obtain ⟨rfl, rfl⟩ := h
        exact hc
    · intro s ps va r h
      simp only [parseParams] at h
      split at h
      · simp only [Option.some.injEq, Prod.mk.injEq] at h
        obtain ⟨rfl, rfl, rfl⟩ := h
        simp [Ty.parseableList]
      · split at h
        · simp only [Option.some.injEq, Prod.mk.injEq] at h
          obtain ⟨rfl, rfl, rfl⟩ := h
          simp [Ty.parseableList]
        · cases h
      · split at h
        · cases h
        · rename_i t0 r0 heq
          split at h
          · cases h
          · rename_i ts0 va0 r2 heq2
            simp only [Option.some.injEq, Prod.mk.injEq] at h
            obtain ⟨rfl, rfl, rfl⟩ := h
            simp [Ty.parseableList, ih_ty _ _ _ heq, ih_prest _ _ _ _ heq2]
    · intro s ps va r h
      simp only [parseParamsRest] at h
      split at h
      · simp only [Option.some.injEq, Prod.mk.injEq] at h
        obtain ⟨rfl, rfl, rfl⟩ := h
        simp [Ty.parseableList]
      · split at h
        · split at h
          · simp only [Option.some.injEq, Prod.mk.injEq] at h
            obtain ⟨rfl, rfl, rfl⟩ := h
            simp [Ty.parseableList]
          · cases h
        · split at h
          · cases h
          · rename_i t0 r0 heq
            split at h
            · cases h
            · rename_i ts0 va0 r2 heq2
              simp only [Option.some.injEq, Prod.mk.injEq] at h
              obtain ⟨rfl, rfl, rfl⟩ := h
              simp [Ty.parseableList, ih_ty _ _ _ heq, ih_prest _ _ _ _ heq2]
      · cases h
    · intro s ts r h
      simp only [parseFieldList] at h
      split at h
      · simp only [Option.some.injEq, Prod.mk.injEq] at h
        obtain ⟨rfl, rfl⟩ := h
        simp [Ty.parseableList]
      · split at h
        · cases h
        · rename_i t0 r0 heq
          split at h
          · cases h
          · rename_i ts0 r2 heq2
            simp only [Option.some.injEq, Prod.mk.injEq] at h
            obtain ⟨rfl, rfl⟩ := h
            simp [Ty.parseableList, ih_ty _ _ _ heq, ih_fr _ _ _ heq2]
    · intro s ts r h
      simp only [parseFieldRest] at h
      split at h
      · simp only [Option.some.injEq, Prod.mk.injEq] at h
        obtain ⟨rfl, rfl⟩ := h
        simp [Ty.parseableList]
      · split at h
        · cases h
        · rename_i t0 r0 heq
          split at h
          · cases h
          · rename_i ts0 r2 heq2
            simp only [Option.some.injEq, Prod.mk.injEq] at h
            obtain ⟨rfl, rfl⟩ := h
            simp [Ty.parseableList, ih_ty _ _ _ heq, ih_fr _ _ _ heq2]
      · cases h
    · intro s ps r h
      simp only [parseTEParamsRest] at h
      split at h
      · simp only [Option.some.injEq, Prod.mk.injEq] at h
        obtain ⟨rfl, rfl⟩ := h
        simp [Ty.parseableTEs]
      · split at h
        · cases h
        · split at h
          · split at h
            · cases h
            · rename_i n r2 heq
              split at h
              · cases h
              · rename_i ps0 r3 heq2
                simp only [Option.some.injEq, Prod.mk.injEq] at h
                obtain ⟨rfl, rfl⟩ := h
                simp [Ty.parseableTEs, ih_te _ _ _ heq2]
          · split at h
            · cases h
            · rename_i t0 r2 heq
              split at h
              · cases h
              · rename_i ps0 r3 heq2
                simp only [Option.some.injEq, Prod.mk.injEq] at h
                obtain ⟨rfl, rfl⟩ := h
                simp [Ty.parseableTEs, ih_ty _ _ _ heq, ih_te _ _ _ heq2]
      · cases h
    · intro sc s t r h
      simp only [parseVectorTail] at h
      split at h
      · cases h
      · rename_i n r0 heq
        split at h
        · split at h
          · cases h
          · rename_i e r3 heq2
            split at h
            · simp only [Option.some.injEq, Prod.mk.injEq] at h
              obtain ⟨rfl, rfl⟩ := h
              simp [Ty.parseable, ih_ty _ _ _ heq2]
            · cases h
        · cases h
    · intro s t r h
      simp only [parsePrimary] at h
      split at h
      · cases h
      · -- leading '<'
        split at h
        · -- packed structure
          split at h
          · cases h
          · rename_i ts0 r0 heq
            split at h
            · simp only [Option.some.injEq, Prod.mk.injEq] at h
              obtain ⟨rfl, rfl⟩ := h
              simp [Ty.parseable, ih_fl _ _ _ heq]
            · cases h
        · -- vscale or plain vector
          split at h
          · split at h
            · exact ih_vt _ _ _ _ h
            · cases h
          · exact ih_vt _ _ _ _ h
      · -- leading '['
        split at h
        · cases h
        · rename_i n r0 heq
          split at h
          · split at h
            · cases h
            · rename_i e r3 heq2
              split at h
              · simp only [Option.some.injEq, Prod.mk.injEq] at h
                obtain ⟨rfl, rfl⟩ := h
                simp [Ty.parseable, ih_ty _ _ _ heq2]
              · cases h
          · cases h
      · -- leading '{'
        split at h
        · cases h
        · rename_i ts0 r0 heq
          simp only [Option.some.injEq, Prod.mk.injEq] at h
          obtain ⟨rfl, rfl⟩ := h
          simp [Ty.parseable, ih_fl _ _ _ heq]
      · -- keyword chain
        split at h
        · simp only [Option.some.injEq, Prod.mk.injEq] at h
          obtain ⟨rfl, rfl⟩ := h
          simp [Ty.parseable]
        · split at h
          · simp only [Option.some.injEq, Prod.mk.injEq] at h
            obtain ⟨rfl, rfl⟩ := h
            simp [Ty.parseable]
          · split at h
            · simp only [Option.some.injEq, Prod.mk.injEq] at h
              obtain ⟨rfl, rfl⟩ := h
              simp [Ty.parseable]
            · split at h
              · simp only [Option.some.injEq, Prod.mk.injEq] at h
                obtain ⟨rfl, rfl⟩ := h
                simp [Ty.parseable]
              · split at h
                · simp only [Option.some.injEq, Prod.mk.injEq] at h
                  obtain ⟨rfl, rfl⟩ := h
                  simp [Ty.parseable]
                · split at h
                  · simp only [Option.some.injEq, Prod.mk.injEq] at h
                    obtain ⟨rfl, rfl⟩ := h
                    simp [Ty.parseable]
                  · split at h
                    · simp only [Option.some.injEq, Prod.mk.injEq] at h
                      obtain ⟨rfl, rfl⟩ := h
                      simp [Ty.parseable]
                    · split at h
                      · simp only [Option.some.injEq, Prod.mk.injEq] at h
                        obtain ⟨rfl, rfl⟩ := h
                        simp [Ty.parseable]
                      · split at h
                        · simp only [Option.some.injEq, Prod.mk.injEq] at h
                          obtain ⟨rfl, rfl⟩ := h
                          simp [Ty.parseable]
                        · split at h
                          · simp only [Option.some.injEq, Prod.mk.injEq] at h
                            obtain ⟨rfl, rfl⟩ := h
                            simp [Ty.parseable]
                          · split at h
                            · simp only [Option.some.injEq, Prod.mk.injEq] at h
                              obtain ⟨rfl, rfl⟩ := h
                              simp [Ty.parseable]
                            · split at h
                              · simp only [Option.some.injEq, Prod.mk.injEq] at h
                                obtain ⟨rfl, rfl⟩ := h
                                simp [Ty.parseable]
                              · split at h
                                · simp only [Option.some.injEq, Prod.mk.injEq] at h
                                  obtain ⟨rfl, rfl⟩ := h
                                  simp [Ty.parseable]
                                · -- ptr, target, integer
                                  split at h
                                  · -- ptr
                                    split at h
                                    · simp only [Option.some.injEq, Prod.mk.injEq] at h
                                      obtain ⟨rfl, rfl⟩ := h
                                      simp [Ty.parseable]
                                    · split at h
                                      · split at h
                                        · -- named address space
                                          split at h
                                          · cases h
                                          · rename_i cs0 r5 heq
                                            split at h
                                            · simp only [Option.some.injEq,
                                                Prod.mk.injEq] at h
                                              obtain ⟨rfl, rfl⟩ := h
                                              simp [Ty.parseable, noQuote,
                                                takeUntilQuote_sound _ _ _ heq]
                                            · cases h
                                        · -- numbered address space
                                          split at h
                                          · cases h
                                          · split at h
                                            · simp only [Option.some.injEq,
                                                Prod.mk.injEq] at h
                                              obtain ⟨rfl, rfl⟩ := h
                                              simp [Ty.parseable]
                                            · cases h
                                      · cases h
                                  · -- target or integer
                                    split at h
                                    · -- target extension
                                      split at h
                                      · split at h
                                        · split at h
                                          · cases h
                                          · rename_i cs0 r4 heq
                                            split at h
                                            · cases h
                                            · rename_i ps0 r5 heq2
                                              simp only [Option.some.injEq,
                                                Prod.mk.injEq] at h
                                              obtain ⟨rfl, rfl⟩ := h
                                              simp [Ty.parseable, noQuote,
                                                takeUntilQuote_sound _ _ _ heq,
                                                ih_te _ _ _ heq2]
                                        · cases h
                                      · cases h
                                    · -- integer or dead end
                                      split at h
                                      · split at h
                                        · cases h
                                        · simp only [Option.some.injEq, Prod.mk.injEq] at h
                                          obtain ⟨rfl, rfl⟩ := h
                                          simp [Ty.parseable]
                                      · cases h

mutual

/-- The parse-cost measure of a type is at most twice its printed length,
so the entry point's fuel is ample for reparsing a printed type. -/
theorem sizeTy_le_print : (t : Ty) → sizeTy t ≤ 2 * (printTy t).length
  | .Void => by simp [sizeTy, printTy]
  | .Function r ps va => by
      have h1 := sizeTy_le_print r
      have h2 := sizeTyList_le_params ps va
      simp only [sizeTy, printTy, List.length_append, List.length_cons, List.length_nil]
      omega
  | .Integer w => by simp [sizeTy, printTy]; omega
  | .FloatingPoint k => by cases k <;> simp [sizeTy, printTy]
  | .AMX => by simp [sizeTy, printTy]
  | .MMX => by simp [sizeTy, printTy]
  | .Pointer (.Numbered 0) => by simp [sizeTy, printTy]
  | .Pointer (.Numbered (n + 1)) => by simp [sizeTy, printTy]; omega
  | .Pointer (.Named s) => by simp [sizeTy, printTy]; omega
  | .TargetExtension nm ps => by
      have h2 := sizeTEList_le_print ps
      simp only [sizeTy, printTy, List.length_append, List.length_cons, List.length_nil]
      omega
  | .Vector l e false => by
      have h1 := sizeTy_le_print e
      simp only [sizeTy, printTy, List.length_append, List.length_cons, List.length_nil]
      omega
  | .Vector l e true => by
      have h1 := sizeTy_le_print e
      simp only [sizeTy, printTy, List.length_append, List.length_cons, List.length_nil]
      omega
  | .Label => by simp [sizeTy, printTy]
  | .Token => by simp [sizeTy, printTy]
  | .Metadata => by simp [sizeTy, printTy]
  | .Array l e => by
      have h1 := sizeTy_le_print e
      simp only [sizeTy, printTy, List.length_append, List.length_cons, List.length_nil]
      omega
  | .Structure [] false => by simp [sizeTy, sizeTyList, printTy]
  | .Structure [] true => by simp [sizeTy, sizeTyList, printTy]
  | .Structure (t :: ts) false => by
      have h1 := sizeTy_le_print t
      have h2 := sizeTyList_le_fields ts
      simp only [sizeTy, sizeTyList, printTy, List.length_append, List.length_cons,
        List.length_nil]
      omega
  | .Structure (t :: ts) true => by
      have h1 := sizeTy_le_print t
      have h2 := sizeTyList_le_fields ts
      simp only [sizeTy, sizeTyList, printTy, List.length_append, List.length_cons,
        List.length_nil]
      omega
  | .OpaqueStructure => by simp [sizeTy, printTy]

/-- List form of the print-length bound, against `printFieldsRest`. -/
theorem sizeTyList_le_fields : (ts : List Ty) → sizeTyList ts ≤ 2 * (printFieldsRest ts).length
  | [] => by simp [sizeTyList, printFieldsRest]
  | t :: ts => by
      have h1 := sizeTy_le_print t
      have h2 := sizeTyList_le_fields ts
      simp only [sizeTyList, printFieldsRest, List.length_append, List.length_cons,
        List.length_nil]
      omega

/-- List form of the print-length bound, against `printParams`. -/
theorem sizeTyList_le_params : (ps : List Ty) → (va : Bool) →
    sizeTyList ps ≤ 2 * (printParams ps va).length + 2
  | [], false => by simp [sizeTyList, printParams]
  | [], true => by simp [sizeTyList, printParams]
  | t :: ts, va => by
      have h1 := sizeTy_le_print t
      have h2 := sizeTyList_le_paramsRest ts va
      simp only [sizeTyList, printParams, List.length_append, List.length_cons,
        List.length_nil]
      omega

/-- List form of the print-length bound, against `printParamsRest`. -/
theorem sizeTyList_le_paramsRest : (ps : List Ty) → (va : Bool) →
    sizeTyList ps ≤ 2 * (printParamsRest ps va).length
  | [], false => by simp [sizeTyList, printParamsRest]
  | [], true => by simp [sizeTyList, printParamsRest]
  | t :: ts, va => by
      have h1 := sizeTy_le_print t
      have h2 := sizeTyList_le_paramsRest ts va
      simp only [sizeTyList, printParamsRest, List.length_append, List.length_cons,
        List.length_nil]
      omega

/-- Target-extension form of the print-length bound. -/
theorem sizeTEList_le_print : (ps : List TargetExtensionParameter) →
    sizeTEList ps ≤ 2 * (printTEParams ps).length
  | [] => by simp [sizeTEList, printTEParams]
  | .type t :: ps => by
      have h1 := sizeTy_le_print t
      have h2 := sizeTEList_le_print ps
      simp only [sizeTEList, printTEParams, List.length_append, List.length_cons,
        List.length_nil]
      omega
  | .integer n :: ps => by
      have h2 := sizeTEList_le_print ps
      simp only [sizeTEList, printTEParams, List.length_append, List.length_cons,
        List.length_nil]
      omega

end

/-- C7: the type parser maps `"i32"` to `Integer 32`, `"<4 x i32>"` to the
fixed 4-element vector of `Integer 32`, `"<vscale x 4 x i32>"` to its
scalable variant, and also accepts `"i1"`, yielding `Integer 1` (width 1 is
accepted; no width-at-least-2 check exists). -/
theorem c7_parser_examples :
    parse_type (String.mk ['i','3','2']) = some (.Integer 32) ∧
    parse_type (String.mk ['<','4',' ','x',' ','i','3','2','>']) =
      some (.Vector 4 (.Integer 32) false) ∧
    parse_type (String.mk
        ['<','v','s','c','a','l','e',' ','x',' ','4',' ','x',' ','i','3','2','>']) =
      some (.Vector 4 (.Integer 32) true) ∧
    parse_type (String.mk ['i','1']) = some (.Integer 1) :=
  ⟨rfl, rfl, rfl, rfl⟩

/-- C8: round-trip stability up to canonical printing — whenever a string
parses to a type `t`, the canonical print of `t` parses back to exactly
`t`. -/
theorem c8_print_parse_roundtrip (s : String) (t : Ty) (h : parse_type s = some t) :
    parse_type (print_type t) = some t := by
  have hp : Ty.parseable t = true := by
    simp only [parse_type] at h
    split at h
    · cases h
    · rename_i t0 rest heq
      split at h
      · simp only [Option.some.injEq] at h
        subst h
        exact (parse_sound (8 * s.length + 16)).1 s.data t0 rest heq
      · cases h
  have hfuel : 4 * sizeTy t + 8 < 8 * (printTy t).length + 16 := by
    have := sizeTy_le_print t
    omega
  have hparse : parseTy (8 * (printTy t).length + 16) (printTy t) = some (t, []) := by
    have h2 := pp_ty t hp (8 * (printTy t).length + 16) [] hfuel (by rfl) (by rfl)
    rwa [List.append_nil] at h2
  show (match parseTy (8 * (printTy t).length + 16) (printTy t) with
        | none => none
        | some (t, rest) =>
            match skipWs rest with
            | [] => some t
            | _ => none) = some t
  rw [hparse]
  rfl

/-- The C8 round trip at the concrete input `"i32"`. -/
theorem c8_roundtrip_witness :
    parse_type (print_type (Ty.Integer 32)) = some (Ty.Integer 32) :=
  c8_print_parse_roundtrip (String.mk ['i','3','2']) (Ty.Integer 32) rfl
